import Mathlib

/-!
GSDAM_ColorAGris: colour BMP to grey BMP.

A shallow embedding of `src/ColorToGrey/main.cpp` (the sequential converter) and
`src/ColorToGrey_Multithead/main.cpp` (the two-band converter).

Modelling conventions.

* A file is the list of its bytes. `std::ifstream` is a record of the file content, the
  read position and the fail state; `std::ofstream` is the list of bytes written so far.
* `int` is the 32-bit two's complement integer, carried as an `Int`. Signed overflow is
  undefined behaviour in C++: the embedding then yields `none`. A variable-length array with a
  negative bound, an out-of-bounds array access, and emitting bytes of a buffer that a short
  `read` left unwritten also yield `none`.
* The host is little-endian (the source reads header fields straight into an `int`).
* `double` is IEEE 754 binary64 with round-to-nearest-even, every operation rounded once;
  non-negative finite values are carried exactly, as multiples of `2 ^ (-1074)`.
-/

/-- One byte (`unsigned char`). -/
abbrev Byte := Fin 256

/-! ## 32-bit `int` -/

/-- Largest `int`. -/
def INT_MAX : Int := 2147483647

/-- Smallest `int`. -/
def INT_MIN : Int := -2147483648

/-- Result of an `int` operation whose exact value is `x`: undefined on overflow. -/
def checkedInt (x : Int) : Option Int :=
  if INT_MIN ≤ x ∧ x ≤ INT_MAX then some x else none

/-- Number whose little-endian byte representation (least significant byte first) is given. -/
def leValue : List Byte → Nat
  | [] => 0
  | b :: rest => b.val + 256 * leValue rest

/-- Value of an `int` whose object representation is the 32-bit pattern `n`. -/
def asInt32 (n : Nat) : Int :=
  if n < 2147483648 then (n : Int) else (n : Int) - 4294967296

/-- Value of an `int` that was initialised to `0` and then had its first bytes overwritten by
the bytes `raw` (at most four) of a `read((char *)&x, k)`. -/
def intOfBytes (raw : List Byte) : Int := asInt32 (leValue raw)

/-! ## Streams -/

/-- An input file stream: content of the file, read position, fail state. -/
structure IfStream where
  content : List Byte
  pos : Nat
  failed : Bool
deriving DecidableEq, Repr

/-- A freshly opened stream on a file. -/
def IfStream.ofFile (file : List Byte) : IfStream :=
  { content := file, pos := 0, failed := false }

/-- Effect of `seekg(p)`: a failed stream ignores it, a negative position fails the stream. -/
def IfStream.seekg (s : IfStream) (p : Int) : IfStream :=
  if s.failed then s
  else if p < 0 then { s with failed := true }
  else { s with pos := p.toNat }

/-- Effect of `read(buf, n)`: the bytes stored into the buffer and the stream afterwards. A failed
stream stores nothing; a read that meets the end of the file stores the bytes that were left
and fails the stream. -/
def IfStream.read (s : IfStream) (n : Nat) : List Byte × IfStream :=
  if s.failed then ([], s)
  else
    let got := (s.content.drop s.pos).take n
    (got, { s with pos := s.pos + got.length, failed := decide (got.length < n) })

/-! ## Header offsets -/

/-- Offset of the start of the file. -/
def INICIO : Int := 0x0000

/-- Offset of width and height. -/
def DIMENSIONES : Int := 0x0012

/-- Offset of the bits-per-pixel field. -/
def BPP : Int := 0x001C

/-- Offset of the pixel-data offset field. -/
def DATA_OFFSET : Int := 0x000A

/-! ## Functions shared by both programs (the two files carry identical copies) -/

/-- Function `isBmpFile`: the two leading bytes are compared with "BM". The buffer `fileType` is not
initialised, so a short read leaves the answer undetermined (`none`) unless the first byte
already differs. -/
def isBmpFile (colorImage : IfStream) : Option Bool × IfStream :=
  let s := colorImage.seekg INICIO
  let (fileType, s1) := s.read 2
  match fileType with
  | [c0, c1] => (some (decide (c0 = 66 ∧ c1 = 77)), s1)
  | [c0] => (if c0 = 66 then none else some false, s1)
  | _ => (none, s1)

/-- Function `is24Bpp`: two bytes at `BPP` are read into the low bytes of `int bpp = 0`. -/
def is24Bpp (colorImage : IfStream) : Bool × IfStream :=
  let s := colorImage.seekg BPP
  let (raw, s1) := s.read 2
  (decide (intOfBytes raw = 24), s1)

/-- Function `getDimension`: width, then height, each read into an `int` the caller set to `0`. -/
def getDimension (colorImage : IfStream) : Int × Int × IfStream :=
  let s := colorImage.seekg DIMENSIONES
  let (rawWidth, s1) := s.read 4
  let (rawHeight, s2) := s1.read 4
  (intOfBytes rawWidth, intOfBytes rawHeight, s2)

/-- Function `copyHeader`: returns the stream, the destination and `headerSize`. The four bytes at
`DATA_OFFSET` are read into the signed `int headerSize = 0`. There is no defined result
(`none`) when `headerSize` is negative (bound of the array `c[headerSize]`), or when the
`read` into `c` falls short, since `write` would then emit bytes of `c` that were never
stored. -/
def copyHeader (source : IfStream) (destiny : List Byte) : Option (IfStream × List Byte × Int) :=
  let s := source.seekg DATA_OFFSET
  let (raw, s1) := s.read 4
  let headerSize := intOfBytes raw
  let s2 := s1.seekg INICIO
  if headerSize < 0 then none
  else
    let (c, s3) := s2.read headerSize.toNat
    if c.length < headerSize.toNat then none
    else some (s3, destiny ++ c, headerSize)

/-! ## binary64 arithmetic on non-negative values

A non-negative finite binary64 value `v` is carried as the natural number `v * 2 ^ 1074`. -/

/-- The number that stands for the value `1`. -/
def binary64Unit : Nat := 2 ^ 1074

/-- Number of halvings that bring `q` below `2 ^ 53`, at most `fuel` of them. -/
def excessBits : Nat → Nat → Nat
  | 0, _ => 0
  | fuel + 1, q => if q < 2 ^ 53 then 0 else excessBits fuel (q / 2) + 1

/-- Round the rational `num / den` to a number with at most 53 significant bits, to nearest,
ties to the even significand. -/
def roundNearestEven (num den : Nat) : Nat :=
  let ulp := 2 ^ excessBits (num / den) (num / den)
  let k := num / (den * ulp)
  let twiceRest := 2 * (num % (den * ulp))
  if twiceRest < den * ulp then k * ulp
  else if den * ulp < twiceRest then (k + 1) * ulp
  else if k % 2 = 0 then k * ulp
  else (k + 1) * ulp

/-- The `double` denoted by a decimal literal with value `num / den`. -/
def dlit (num den : Nat) : Nat := roundNearestEven (num * binary64Unit) den

/-- The `double` an integer converts to (exact below `2 ^ 53`). -/
def dofNat (n : Nat) : Nat := n * binary64Unit

/-- Product of two `double`s. -/
def dmul (x y : Nat) : Nat := roundNearestEven (x * y) binary64Unit

/-- Sum of two `double`s. -/
def dadd (x y : Nat) : Nat := roundNearestEven (x + y) 1

/-- Integer part of a `double` (conversion to an integer type truncates). -/
def dtrunc (x : Nat) : Nat := x / binary64Unit

/-- Integer part of `0.21 * r + 0.72 * g + 0.07 * b`, the value `grey` converts to `char`. -/
def greyValue (r g b : Byte) : Nat :=
  dtrunc (dadd (dadd (dmul (dlit 21 100) (dofNat r.val)) (dmul (dlit 72 100) (dofNat g.val)))
    (dmul (dlit 7 100) (dofNat b.val)))

/-- Function `grey`. The returned `char` is only ever stored into an `unsigned char` or written as
one byte, so it is carried as that byte: the integer part modulo 256. -/
def grey (r g b : Byte) : Byte := Fin.ofNat (greyValue r g b)

/-- The expression `((width*3) % 4 > 0) ? 4 - ((width*3) % 4) : 0` that both `convertToGrey`
assign to `lineOffset`; `%` truncates towards zero. -/
def lineOffset (width : Int) : Option Int :=
  match checkedInt (width * 3) with
  | none => none
  | some w3 => some (if Int.tmod w3 4 > 0 then 4 - Int.tmod w3 4 else 0)

/-- What a run of `main` on a source file does about the output file. -/
inductive Outcome where
  /-- The format test depended on uninitialised memory. -/
  | undetermined : Outcome
  /-- No output file was opened. -/
  | rejected : Outcome
  /-- The output file was opened and the conversion appended these bytes (`none`: the
  conversion left defined behaviour). -/
  | created (written : Option (List Byte)) : Outcome
deriving DecidableEq, Repr

namespace ColorToGrey

/-- One `unsigned char x = 0; colorImage.read((char *)&x, 1);`: the byte read, or the initial
`0` when nothing could be read. -/
def readChannel (colorImage : IfStream) : Byte × IfStream :=
  let (raw, s1) := colorImage.read 1
  (raw.headD 0, s1)

/-- The inner loop `for (int j = 0; j < width; j++)` with `n` iterations to go. -/
def pixelLoop : Nat → IfStream → List Byte → IfStream × List Byte
  | 0, colorImage, greyImage => (colorImage, greyImage)
  | n + 1, colorImage, greyImage =>
    let (b, s1) := readChannel colorImage
    let (g, s2) := readChannel s1
    let (r, s3) := readChannel s2
    let greyScale := grey r g b
    pixelLoop n s3 (greyImage ++ [greyScale, greyScale, greyScale])

/-- The outer loop `for (int i = 0; i < height; i++)` with `n` iterations to go. A short `read`
of the filler bytes leaves part of `c[lineOffset]` unwritten, and what is then written is not
determined (`none`). -/
def rowLoop (width lineOffset : Int) : Nat → IfStream → List Byte → Option (IfStream × List Byte)
  | 0, colorImage, greyImage => some (colorImage, greyImage)
  | n + 1, colorImage, greyImage =>
    let (s1, out1) := pixelLoop width.toNat colorImage greyImage
    if lineOffset > 0 then
      let (c, s2) := s1.read lineOffset.toNat
      if c.length < lineOffset.toNat then none
      else rowLoop width lineOffset n s2 (out1 ++ c)
    else rowLoop width lineOffset n s1 out1

/-- The sequential `convertToGrey`. -/
def convertToGrey (colorImage : IfStream) (greyImage : List Byte) :
    Option (IfStream × List Byte) :=
  match copyHeader colorImage greyImage with
  | none => none
  | some (s1, out1, dataOffset) =>
    let (width, height, s2) := getDimension s1
    match lineOffset width with
    | none => none
    | some lineOffset => rowLoop width lineOffset height.toNat (s2.seekg dataOffset) out1

/-- The sequential `main`, given the content of the file named on the command line. -/
def main (file : List Byte) : Outcome :=
  match isBmpFile (IfStream.ofFile file) with
  | (none, _) => Outcome.undetermined
  | (some false, _) => Outcome.rejected
  | (some true, s1) =>
    match is24Bpp s1 with
    | (false, _) => Outcome.rejected
    | (true, s2) => Outcome.created ((convertToGrey s2 []).map Prod.snd)

end ColorToGrey

namespace ColorToGrey_Multithead

/-- Body of the inner loop of `rgbToGrey`: one pixel at `idx`, returning the array and the new
`idx`. There is no defined result (`none`) when `idx` is negative or an element lies outside the
array, or when one of the three `idx++` would pass `INT_MAX`. -/
def rgbToGreyPixel (pixelArray : List Byte) (idx : Int) : Option (List Byte × Int) :=
  if idx < 0 ∨ INT_MAX < idx + 3 then none
  else
    match pixelArray[idx.toNat + 2]?, pixelArray[idx.toNat + 1]?, pixelArray[idx.toNat]? with
    | some r, some g, some b =>
      let greyScale := grey r g b
      some (((pixelArray.set idx.toNat greyScale).set (idx.toNat + 1) greyScale).set
        (idx.toNat + 2) greyScale, idx + 3)
    | _, _, _ => none

/-- The inner loop `for (int j = 0; j < width; j++)` with `n` iterations to go. -/
def rgbToGreyLine : Nat → List Byte → Int → Option (List Byte × Int)
  | 0, pixelArray, idx => some (pixelArray, idx)
  | n + 1, pixelArray, idx =>
    match rgbToGreyPixel pixelArray idx with
    | none => none
    | some (pixelArray1, idx1) => rgbToGreyLine n pixelArray1 idx1

/-- The outer loop `for (int i = 0; i < height; i++)` with `n` iterations to go; `idx += lineOffset`
is an `int` addition. -/
def rgbToGreyLines (width lineOffset : Int) : Nat → List Byte → Int → Option (List Byte × Int)
  | 0, pixelArray, idx => some (pixelArray, idx)
  | n + 1, pixelArray, idx =>
    match rgbToGreyLine width.toNat pixelArray idx with
    | none => none
    | some (pixelArray1, idx1) =>
      match checkedInt (idx1 + lineOffset) with
      | none => none
      | some idx2 => rgbToGreyLines width lineOffset n pixelArray1 idx2

/-- Function `rgbToGrey`: the pixel array after the call. -/
def rgbToGrey (pixelArray : List Byte) (height width lineOffset : Int) : Option (List Byte) :=
  (rgbToGreyLines width lineOffset height.toNat pixelArray 0).map Prod.fst

/-- The array `unsigned char half[size]` together with the `read` that fills it: no defined
result (`none`) for a negative `size`, or when the `read` falls short and leaves part of the
array unwritten. -/
def readArray (colorImage : IfStream) (size : Int) : Option (List Byte × IfStream) :=
  if size < 0 then none
  else
    let (buf, s1) := colorImage.read size.toNat
    if buf.length < size.toNat then none else some (buf, s1)

/-- The two-band `convertToGrey`. The two threads work on separate arrays and are joined before
anything is written, so each band is the result of its own `rgbToGrey` call. -/
def convertToGrey (colorImage : IfStream) (greyImage : List Byte) :
    Option (IfStream × List Byte) :=
  match copyHeader colorImage greyImage with
  | none => none
  | some (s1, out1, dataOffset) =>
    let (width, height, s2) := getDimension s1
    match lineOffset width with
    | none => none
    | some lineOffset =>
      let firstHalfHeight := Int.tdiv height 2 + Int.tmod height 2
      match checkedInt (width * 3 + lineOffset) with
      | none => none
      | some lineBytes =>
        match checkedInt (firstHalfHeight * lineBytes) with
        | none => none
        | some firstHalfSize =>
          let secondHalfHeight := Int.tdiv height 2
          match checkedInt (secondHalfHeight * lineBytes) with
          | none => none
          | some secondHalfSize =>
            match readArray (s2.seekg dataOffset) firstHalfSize with
            | none => none
            | some (firstHalf, s3) =>
              match readArray s3 secondHalfSize with
              | none => none
              | some (secondHalf, s4) =>
                match rgbToGrey firstHalf firstHalfHeight width lineOffset,
                    rgbToGrey secondHalf secondHalfHeight width lineOffset with
                | some firstGrey, some secondGrey => some (s4, out1 ++ firstGrey ++ secondGrey)
                | _, _ => none

/-- The two-band `main`, given the content of the file named on the command line. -/
def main (file : List Byte) : Outcome :=
  match isBmpFile (IfStream.ofFile file) with
  | (none, _) => Outcome.undetermined
  | (some false, _) => Outcome.rejected
  | (some true, s1) =>
    match is24Bpp s1 with
    | (false, _) => Outcome.rejected
    | (true, s2) => Outcome.created ((convertToGrey s2 []).map Prod.snd)

end ColorToGrey_Multithead

/-! ## What the loops compute -/

/-- Effect of the pixel loop on a run of whole pixels: every triple `b, g, r` becomes three
copies of `grey r g b`. -/
def greyPixels : List Byte → List Byte
  | b :: g :: r :: rest => grey r g b :: grey r g b :: grey r g b :: greyPixels rest
  | rest => rest

/-- Effect of the row loop on `height` rows of `width` pixels followed by `fill` filler bytes:
the pixels of each row are greyed, its filler bytes are kept. -/
def greyRows (width fill : Nat) : Nat → List Byte → List Byte
  | 0, _ => []
  | height + 1, bytes =>
    greyPixels (bytes.take (3 * width)) ++ (bytes.drop (3 * width)).take fill ++
      greyRows width fill height (bytes.drop (3 * width + fill))

/-- The 4-byte little-endian field of a file at a byte offset, as an unsigned number. -/
def fieldAt (file : List Byte) (offset : Nat) : Nat := leValue ((file.drop offset).take 4)

/-- The specification's `rowPadding(width)`, "returns `(4 - (width*3) mod 4) mod 4`": written
from the specification's words, to be compared with `lineOffset`, which is written from the
source. -/
def rowPadding (width : Int) : Int := (4 - (width * 3) % 4) % 4

/-! ## Sample files -/

/-- The 2 x 2 image of the specification's end-to-end scenario: 54 header bytes, then two rows
of two pixels and two filler bytes each. -/
def sampleBmp : List Byte :=
  [66, 77, 70, 0, 0, 0, 0, 0, 0, 0, 54, 0, 0, 0,
   40, 0, 0, 0, 2, 0, 0, 0, 2, 0, 0, 0, 1, 0, 24, 0,
   0, 0, 0, 0, 16, 0, 0, 0, 0, 0, 0, 0, 0, 0, 0, 0, 0, 0, 0, 0, 0, 0, 0, 0,
   0, 0, 255, 0, 255, 0, 7, 9,
   255, 0, 0, 255, 255, 255, 3, 4]

/-- The pixel region of `sampleBmp`. -/
def samplePixels : List Byte :=
  [0, 0, 255, 0, 255, 0, 7, 9, 255, 0, 0, 255, 255, 255, 3, 4]

/-- Header of a 24bpp image of one row of 715827882 pixels (width bytes `AA AA AA 2A`), pixel
data at offset 54. -/
def wideHeader : List Byte :=
  [66, 77, 54, 0, 0, 128, 0, 0, 0, 0, 54, 0, 0, 0,
   40, 0, 0, 0, 170, 170, 170, 42, 1, 0, 0, 0, 1, 0, 24, 0,
   0, 0, 0, 0, 0, 0, 0, 128, 0, 0, 0, 0, 0, 0, 0, 0, 0, 0, 0, 0, 0, 0, 0, 0]

/-- Header of a file whose offset field (bytes `00 00 00 80`) declares the pixel data at
2147483648; width and height are 0. -/
def farHeader : List Byte :=
  [66, 77, 54, 0, 0, 128, 0, 0, 0, 0, 0, 0, 0, 128,
   40, 0, 0, 0, 0, 0, 0, 0, 0, 0, 0, 0, 1, 0, 24, 0,
   0, 0, 0, 0, 0, 0, 0, 0, 0, 0, 0, 0, 0, 0, 0, 0, 0, 0, 0, 0, 0, 0, 0, 0]

/-- A file made of a header followed by `count` zero bytes. -/
def zeroFilled (header : List Byte) (count : Nat) : List Byte :=
  header ++ List.replicate count 0

/-! ## Further definitions: header size, band split, subscripts of `rgbToGrey`, more sample files -/

/-- The first statements of `copyHeader`: `headerSize = 0` and the `read` of four bytes at
`DATA_OFFSET` into it. Returns `headerSize` and the stream. -/
def readHeaderSize (source : IfStream) : Int × IfStream :=
  let s := source.seekg DATA_OFFSET
  let (raw, s1) := s.read 4
  (intOfBytes raw, s1)

/-- The 4-byte little-endian field of a file at a byte offset, read as an `int`. -/
def intFieldAt (file : List Byte) (offset : Nat) : Int :=
  intOfBytes ((file.drop offset).take 4)

/-- A source of 14 bytes whose offset field holds the bytes `FF FF FF FF`. -/
def allOnesOffset : List Byte := [66, 77, 0, 0, 0, 0, 0, 0, 0, 0, 255, 255, 255, 255]

/-- The expression `(height/2) + (height%2)` of the two-band `convertToGrey`; `/` and `%`
truncate towards zero. -/
def firstHalfHeight (height : Int) : Int := Int.tdiv height 2 + Int.tmod height 2

/-- The expression `(height/2)` of the two-band `convertToGrey`. -/
def secondHalfHeight (height : Int) : Int := Int.tdiv height 2

/-- The expression `halfHeight * (width*3 + lineOffset)` that the two-band `convertToGrey`
assigns to `firstHalfSize` and `secondHalfSize`, as `int` arithmetic: the product `width*3`,
the sum and the outer product must each fit an `int`. -/
def halfSize (halfHeight width lineOffset : Int) : Option Int :=
  match checkedInt (width * 3) with
  | none => none
  | some w3 =>
    match checkedInt (w3 + lineOffset) with
    | none => none
    | some lineBytes => checkedInt (halfHeight * lineBytes)

namespace ColorToGrey_Multithead

/-- Subscripts that the body of the inner loop of `rgbToGrey` evaluates at `idx`, in order
(three reads, three writes), and the new `idx`; `none` when an `idx++` would pass `INT_MAX`.
Whether a subscript lies within the array plays no part here. -/
def rgbToGreyPixelIndices (idx : Int) : Option (List Int × Int) :=
  if INT_MAX < idx + 3 then none
  else some ([idx + 2, idx + 1, idx, idx, idx + 1, idx + 2], idx + 3)

/-- Subscripts evaluated by `n` iterations of the inner loop, and the `idx` it ends with
(`none` when the loop was cut short by an overflow). -/
def rgbToGreyLineIndices : Nat → Int → List Int × Option Int
  | 0, idx => ([], some idx)
  | n + 1, idx =>
    match rgbToGreyPixelIndices idx with
    | none => ([], none)
    | some (used, idx1) =>
      ((used ++ (rgbToGreyLineIndices n idx1).1), (rgbToGreyLineIndices n idx1).2)

/-- Subscripts evaluated by `n` iterations of the outer loop. -/
def rgbToGreyLinesIndices (width lineOffset : Int) : Nat → Int → List Int
  | 0, _ => []
  | n + 1, idx =>
    match rgbToGreyLineIndices width.toNat idx with
    | (used, none) => used
    | (used, some idx1) =>
      match checkedInt (idx1 + lineOffset) with
      | none => used
      | some idx2 => used ++ rgbToGreyLinesIndices width lineOffset n idx2

/-- Every subscript `rgbToGrey` evaluates, in order, up to the end of the run or to the first
`int` overflow. -/
def rgbToGreyIndices (height width lineOffset : Int) : List Int :=
  rgbToGreyLinesIndices width lineOffset height.toNat 0

end ColorToGrey_Multithead

/-- An accepted file of 30 bytes that declares 54 header bytes; width 2, height 0. -/
def truncatedBmp : List Byte :=
  [66, 77, 30, 0, 0, 0, 0, 0, 0, 0, 54, 0, 0, 0,
   40, 0, 0, 0, 2, 0, 0, 0, 0, 0, 0, 0, 1, 0, 24, 0]

/-- An accepted file of 54 bytes, all of them header: width 715827883 (bytes `AB AA AA 2A`),
height 0. -/
def overflowWidthBmp : List Byte :=
  [66, 77, 54, 0, 0, 0, 0, 0, 0, 0, 54, 0, 0, 0,
   40, 0, 0, 0, 171, 170, 170, 42, 0, 0, 0, 0, 1, 0, 24, 0,
   0, 0, 0, 0, 0, 0, 0, 0, 0, 0, 0, 0, 0, 0, 0, 0, 0, 0, 0, 0, 0, 0, 0, 0]

/-- A file of 29 bytes that ends in the middle of the bits-per-pixel field (its last byte is
24); it declares 20 header bytes, width 0 and height 0. -/
def shortAcceptedBmp : List Byte :=
  [66, 77, 29, 0, 0, 0, 0, 0, 0, 0, 20, 0, 0, 0,
   40, 0, 0, 0, 0, 0, 0, 0, 0, 0, 0, 0, 1, 0, 24]

/-! ## Rounding error of binary64 operations -/

theorem excessBits_spec (fuel q : Nat) (h : q ≤ fuel) :
    2 ^ excessBits fuel q * 2 ^ 52 ≤ q ∨ excessBits fuel q = 0 := by
  induction fuel generalizing q with
  | zero => right; rfl
  | succ n ih =>
    unfold excessBits
    split
    · right; rfl
    · rename_i hq
      left
      have hq2 : q / 2 ≤ n := by omega
      rcases ih (q / 2) hq2 with h1 | h1
      · rw [Nat.pow_succ]; omega
      · rw [h1]; norm_num; omega

theorem rne_arith (d ulp k m x : Nat) (hd : 0 < d) (hx : x = k * ulp + m) (hm : m < ulp)
    (hspec : ulp * 2 ^ 52 ≤ x ∨ ulp = 1) :
    let R := if 2 * (d * m) < d * ulp then k * ulp
      else if d * ulp < 2 * (d * m) then (k + 1) * ulp
      else if k % 2 = 0 then k * ulp else (k + 1) * ulp
    2 ^ 53 * R ≤ (2 ^ 53 + 1) * x + 2 ^ 52 ∧ (2 ^ 53 - 1) * x ≤ 2 ^ 53 * R + 2 ^ 52 := by
  intro R
  have hsucc : (k + 1) * ulp = k * ulp + ulp := by ring
  have e1 : 2 * (d * m) = d * (2 * m) := by ring
  have hiff : d * (2 * m) < d * ulp ↔ 2 * m < ulp :=
    ⟨fun h => Nat.lt_of_mul_lt_mul_left h, fun h => Nat.mul_lt_mul_of_pos_left h hd⟩
  have hiff2 : d * ulp < d * (2 * m) ↔ ulp < 2 * m :=
    ⟨fun h => Nat.lt_of_mul_lt_mul_left h, fun h => Nat.mul_lt_mul_of_pos_left h hd⟩
  simp only [R, e1, hiff, hiff2, hsucc]
  generalize k * ulp = K at *
  split_ifs <;> omega

theorem rne_exact_bounds (x d : Nat) (hd : 0 < d) :
    2 ^ 53 * roundNearestEven (x * d) d ≤ (2 ^ 53 + 1) * x + 2 ^ 52 ∧
    (2 ^ 53 - 1) * x ≤ 2 ^ 53 * roundNearestEven (x * d) d + 2 ^ 52 := by
  unfold roundNearestEven
  simp only [Nat.mul_div_cancel _ hd]
  have hspec := excessBits_spec x x (le_refl _)
  have hulp : 0 < 2 ^ excessBits x x := Nat.pos_pow_of_pos _ (by norm_num)
  have hspec2 : 2 ^ excessBits x x * 2 ^ 52 ≤ x ∨ 2 ^ excessBits x x = 1 := by
    rcases hspec with h | h
    · exact Or.inl h
    · right; rw [h]; rfl
  generalize 2 ^ excessBits x x = ulp at *
  have hk : x * d / (d * ulp) = x / ulp := by
    rw [Nat.mul_comm x d]; exact Nat.mul_div_mul_left _ _ hd
  have hm : x * d % (d * ulp) = d * (x % ulp) := by
    rw [Nat.mul_comm x d]; exact Nat.mul_mod_mul_left _ _ _
  rw [hk, hm]
  exact rne_arith d ulp (x / ulp) (x % ulp) x hd (Nat.div_add_mod' x ulp).symm
    (Nat.mod_lt _ hulp) hspec2

theorem dlit_21_100 : dlit 21 100 = 7566047373982433 * 2 ^ 1019 := by decide!

theorem dlit_72_100 : dlit 72 100 = 3242591731706757 * 2 ^ 1022 := by decide!

theorem dlit_7_100 : dlit 7 100 = 1261007895663739 * 2 ^ 1020 := by decide!

theorem dmul_dofNat_bounds (c n : Nat) :
    2 ^ 53 * dmul c (dofNat n) ≤ (2 ^ 53 + 1) * (c * n) + 2 ^ 52 ∧
    (2 ^ 53 - 1) * (c * n) ≤ 2 ^ 53 * dmul c (dofNat n) + 2 ^ 52 := by
  have h := rne_exact_bounds (c * n) binary64Unit (by unfold binary64Unit; positivity)
  have e : c * dofNat n = c * n * binary64Unit := by unfold dofNat; ring
  unfold dmul
  rw [e]
  exact h

theorem dadd_bounds (x y : Nat) :
    2 ^ 53 * dadd x y ≤ (2 ^ 53 + 1) * (x + y) + 2 ^ 52 ∧
    (2 ^ 53 - 1) * (x + y) ≤ 2 ^ 53 * dadd x y + 2 ^ 52 := by
  have h := rne_exact_bounds (x + y) 1 (by norm_num)
  rw [Nat.mul_one] at h
  exact h

theorem greyValue_error (r g b : Byte) :
    greyValue r g b ≤ (21 * r.val + 72 * g.val + 7 * b.val) / 100 ∧
    (21 * r.val + 72 * g.val + 7 * b.val) / 100 ≤ greyValue r g b + 1 ∧
    ((21 * r.val + 72 * g.val + 7 * b.val) % 100 ≠ 0 →
      greyValue r g b = (21 * r.val + 72 * g.val + 7 * b.val) / 100) := by
  have hr := r.isLt
  have hg := g.isLt
  have hb := b.isLt
  unfold greyValue dtrunc
  obtain ⟨h1, h1'⟩ := dmul_dofNat_bounds (dlit 21 100) r.val
  obtain ⟨h2, h2'⟩ := dmul_dofNat_bounds (dlit 72 100) g.val
  obtain ⟨h3, h3'⟩ := dmul_dofNat_bounds (dlit 7 100) b.val
  generalize dmul (dlit 21 100) (dofNat r.val) = p1 at *
  generalize dmul (dlit 72 100) (dofNat g.val) = p2 at *
  generalize dmul (dlit 7 100) (dofNat b.val) = p3 at *
  obtain ⟨h4, h4'⟩ := dadd_bounds p1 p2
  generalize dadd p1 p2 = s at *
  obtain ⟨h5, h5'⟩ := dadd_bounds s p3
  generalize dadd s p3 = v at *
  rw [dlit_21_100] at h1 h1'
  rw [dlit_72_100] at h2 h2'
  rw [dlit_7_100] at h3 h3'
  unfold binary64Unit
  generalize r.val = x at *
  generalize g.val = y at *
  generalize b.val = z at *
  refine ⟨?_, ?_, ?_⟩ <;> omega

/-! ## Streams -/

theorem read_good (fc : List Byte) (p n : Nat) (h : p + n ≤ fc.length) :
    IfStream.read { content := fc, pos := p, failed := false } n =
      ((fc.drop p).take n, { content := fc, pos := p + n, failed := false }) := by
  have hl : ((fc.drop p).take n).length = n := by
    rw [List.length_take, List.length_drop]; omega
  simp [IfStream.read, hl]

theorem seekg_good (fc : List Byte) (p q : Nat) :
    IfStream.seekg { content := fc, pos := p, failed := false } (q : Int) =
      { content := fc, pos := q, failed := false } := by
  simp [IfStream.seekg]

theorem take_succ_drop (fc : List Byte) (p n : Nat) (h : p < fc.length) :
    (fc.drop p).take (n + 1) = fc[p] :: (fc.drop (p + 1)).take n := by
  rw [List.drop_eq_getElem_cons h, List.take_succ_cons]

namespace ColorToGrey

theorem readChannel_good (fc : List Byte) (p : Nat) (h : p < fc.length) :
    readChannel { content := fc, pos := p, failed := false } =
      (fc[p], { content := fc, pos := p + 1, failed := false }) := by
  unfold readChannel
  rw [read_good fc p 1 (by omega), take_succ_drop fc p 0 h]
  simp

theorem pixelLoop_good (n : Nat) (fc : List Byte) (p : Nat) (out : List Byte)
    (h : p + 3 * n ≤ fc.length) :
    pixelLoop n { content := fc, pos := p, failed := false } out =
      ({ content := fc, pos := p + 3 * n, failed := false },
        out ++ greyPixels ((fc.drop p).take (3 * n))) := by
  induction n generalizing p out with
  | zero => simp [pixelLoop, greyPixels]
  | succ n ih =>
    have h0 : p < fc.length := by omega
    have h1 : p + 1 < fc.length := by omega
    have h2 : p + 2 < fc.length := by omega
    have e : 3 * (n + 1) = 3 * n + 1 + 1 + 1 := by ring
    have h2' : p + 1 + 1 < fc.length := by omega
    simp only [pixelLoop, readChannel_good fc p h0, readChannel_good fc (p + 1) h1,
      readChannel_good fc (p + 1 + 1) h2']
    rw [ih (p + 1 + 1 + 1) _ (by omega), e, take_succ_drop fc p _ h0,
      take_succ_drop fc (p + 1) _ h1, take_succ_drop fc (p + 1 + 1) _ h2', greyPixels]
    simp [Nat.add_assoc]
    omega

end ColorToGrey

namespace ColorToGrey

theorem rowLoop_good (w fill h : Nat) (fc : List Byte) (p : Nat) (out : List Byte)
    (hlen : p + h * (3 * w + fill) ≤ fc.length) :
    rowLoop (w : Int) (fill : Int) h { content := fc, pos := p, failed := false } out =
      some ({ content := fc, pos := p + h * (3 * w + fill), failed := false },
        out ++ greyRows w fill h (fc.drop p)) := by
  induction h generalizing p out with
  | zero => simp [rowLoop, greyRows]
  | succ h ih =>
    have e : (h + 1) * (3 * w + fill) = h * (3 * w + fill) + (3 * w + fill) := by ring
    rw [e] at hlen ⊢
    have hih := ih (p + (3 * w + fill))
    generalize h * (3 * w + fill) = X at *
    simp only [rowLoop, Int.toNat_ofNat, pixelLoop_good w fc p out (by omega)]
    by_cases hf : 0 < fill
    · have hf' : (fill : Int) > 0 := by exact_mod_cast hf
      have hl : ((fc.drop (p + 3 * w)).take fill).length = fill := by
        rw [List.length_take, List.length_drop]; omega
      simp only [hf', if_true, read_good fc (p + 3 * w) fill (by omega), hl, lt_irrefl, if_false]
      rw [show p + 3 * w + fill = p + (3 * w + fill) by omega, hih _ (by omega), greyRows]
      simp [List.drop_drop, Nat.add_assoc, Nat.add_comm, Nat.add_left_comm]
    · have hf0 : fill = 0 := by omega
      subst hf0
      simp only [Int.ofNat_zero, gt_iff_lt, lt_irrefl, if_false]
      have := hih (out ++ greyPixels (List.take (3 * w) (List.drop p fc))) (by omega)
      simp only [Nat.add_zero, Nat.cast_zero] at this ⊢
      rw [this, greyRows]
      simp [List.drop_drop, Nat.add_assoc, Nat.add_comm, Nat.add_left_comm]

end ColorToGrey

namespace ColorToGrey_Multithead

theorem rgbToGreyPixel_good (pre post : List Byte) (b g r : Byte)
    (hmax : pre.length + 3 ≤ 2147483647) :
    rgbToGreyPixel (pre ++ b :: g :: r :: post) (pre.length : Int) =
      some (pre ++ grey r g b :: grey r g b :: grey r g b :: post,
        ((pre.length + 3 : Nat) : Int)) := by
  have hc : ¬ (((pre.length : Nat) : Int) < 0 ∨ INT_MAX < ((pre.length : Nat) : Int) + 3) := by
    unfold INT_MAX; omega
  have e0 : (pre ++ b :: g :: r :: post)[pre.length]? = some b := by
    rw [List.getElem?_append_right (le_refl _)]; simp
  have e1 : (pre ++ b :: g :: r :: post)[pre.length + 1]? = some g := by
    rw [List.getElem?_append_right (by omega)]; simp
  have e2 : (pre ++ b :: g :: r :: post)[pre.length + 2]? = some r := by
    rw [List.getElem?_append_right (by omega)]; simp
  unfold rgbToGreyPixel
  rw [if_neg hc]
  simp only [Int.toNat_ofNat, e0, e1, e2]
  simp [List.set_append]

theorem rgbToGreyLine_good (n : Nat) (pre px post : List Byte) (hpx : px.length = 3 * n)
    (hmax : pre.length + 3 * n ≤ 2147483647) :
    rgbToGreyLine n (pre ++ px ++ post) (pre.length : Int) =
      some (pre ++ greyPixels px ++ post, ((pre.length + 3 * n : Nat) : Int)) := by
  induction n generalizing pre px with
  | zero =>
    have : px = [] := List.eq_nil_of_length_eq_zero (by omega)
    subst this
    simp [rgbToGreyLine, greyPixels]
  | succ n ih =>
    match px, hpx with
    | b :: g :: r :: rest, hpx =>
      have hrest : rest.length = 3 * n := by simp at hpx; omega
      have h1 := rgbToGreyPixel_good pre (rest ++ post) b g r (by omega)
      have h2 := ih (pre ++ [grey r g b, grey r g b, grey r g b]) rest hrest
        (by simp; omega)
      simp only [List.append_assoc, List.cons_append, List.nil_append, List.length_append,
        List.length_cons, List.length_nil] at h1 h2 ⊢
      rw [rgbToGreyLine, h1]
      simp only []
      rw [greyPixels]
      simp only [Nat.zero_add] at h2
      rw [h2]
      simp [Nat.add_assoc, Nat.mul_add, Nat.add_comm]
      omega
    | [], hpx => simp at hpx
    | [_], hpx => simp at hpx; omega
    | [_, _], hpx => simp at hpx; omega

end ColorToGrey_Multithead

theorem greyPixels_length : ∀ l : List Byte, (greyPixels l).length = l.length
  | b :: g :: r :: rest => by simp [greyPixels, greyPixels_length rest]
  | [] => by simp [greyPixels]
  | [_] => by simp [greyPixels]
  | [_, _] => by simp [greyPixels]

theorem checkedInt_natCast (n : Nat) (h : n ≤ 2147483647) : checkedInt (n : Int) = some (n : Int) := by
  unfold checkedInt INT_MIN INT_MAX
  rw [if_pos]
  omega

namespace ColorToGrey_Multithead

theorem rgbToGreyLines_good (w fill h : Nat) (pre body post : List Byte)
    (hbody : body.length = h * (3 * w + fill))
    (hmax : pre.length + h * (3 * w + fill) ≤ 2147483647) :
    rgbToGreyLines (w : Int) (fill : Int) h (pre ++ body ++ post) (pre.length : Int) =
      some (pre ++ greyRows w fill h body ++ post,
        ((pre.length + h * (3 * w + fill) : Nat) : Int)) := by
  induction h generalizing pre body with
  | zero =>
    have : body = [] := List.eq_nil_of_length_eq_zero (by omega)
    subst this
    simp [rgbToGreyLines, greyRows]
  | succ h ih =>
    have e : (h + 1) * (3 * w + fill) = h * (3 * w + fill) + (3 * w + fill) := by ring
    rw [e] at hbody hmax ⊢
    have hsplit : body = body.take (3 * w) ++ ((body.drop (3 * w)).take fill ++
        body.drop (3 * w + fill)) := by
      rw [← List.drop_drop, List.take_append_drop, List.take_append_drop]
    have hpx : (body.take (3 * w)).length = 3 * w := by
      rw [List.length_take]; omega
    have hfill : ((body.drop (3 * w)).take fill).length = fill := by
      rw [List.length_take, List.length_drop]; omega
    have hrest : (body.drop (3 * w + fill)).length = h * (3 * w + fill) := by
      rw [List.length_drop]; omega
    have h1 := rgbToGreyLine_good w pre (body.take (3 * w))
      ((body.drop (3 * w)).take fill ++ body.drop (3 * w + fill) ++ post) hpx (by omega)
    have h2 := ih (pre ++ greyPixels (body.take (3 * w)) ++ (body.drop (3 * w)).take fill)
      (body.drop (3 * w + fill)) hrest
      (by simp only [List.length_append, greyPixels_length, hpx, hfill]; omega)
    have h3 : checkedInt (((pre.length + 3 * w : Nat) : Int) + (fill : Int)) =
        some ((pre.length + 3 * w + fill : Nat) : Int) := by
      have := checkedInt_natCast (pre.length + 3 * w + fill) (by omega)
      rw [← this]; push_cast; ring_nf
    rw [rgbToGreyLines, Int.toNat_ofNat]
    conv_lhs => rw [hsplit]
    simp only [List.append_assoc] at h1 h2 ⊢
    rw [h1]
    simp only [h3]
    simp only [List.length_append, greyPixels_length, hpx, hfill] at h2
    rw [show pre.length + 3 * w + fill = pre.length + (3 * w + fill) by omega, h2, greyRows]
    simp only [List.append_assoc]
    congr 3
    omega

theorem rgbToGrey_good (w fill h : Nat) (buf : List Byte)
    (hbuf : buf.length = h * (3 * w + fill)) (hmax : h * (3 * w + fill) ≤ 2147483647) :
    rgbToGrey buf (h : Int) (w : Int) (fill : Int) = some (greyRows w fill h buf) := by
  have := rgbToGreyLines_good w fill h [] buf [] hbuf (by simpa using hmax)
  simp only [List.nil_append, List.append_nil, List.length_nil, Nat.cast_zero] at this
  simp [rgbToGrey, this]

end ColorToGrey_Multithead

/-! ## Header fields -/

theorem intOfBytes_field (file : List Byte) (offset n : Nat) (hn : fieldAt file offset = n)
    (hmax : n ≤ 2147483647) : intOfBytes ((file.drop offset).take 4) = (n : Int) := by
  unfold fieldAt at hn
  unfold intOfBytes asInt32
  rw [hn, if_pos (by omega)]

theorem copyHeader_good (fc : List Byte) (p : Nat) (dst : List Byte) (n : Nat)
    (h14 : 14 ≤ fc.length) (hn : fieldAt fc 10 = n) (hmax : n ≤ 2147483647)
    (hlen : n ≤ fc.length) :
    copyHeader { content := fc, pos := p, failed := false } dst =
      some ({ content := fc, pos := n, failed := false }, dst ++ fc.take n, (n : Int)) := by
  have hs : IfStream.seekg { content := fc, pos := p, failed := false } DATA_OFFSET =
      { content := fc, pos := 10, failed := false } := seekg_good fc p 10
  have hs0 : IfStream.seekg { content := fc, pos := 10 + 4, failed := false } INICIO =
      { content := fc, pos := 0, failed := false } := seekg_good fc (10 + 4) 0
  have hl : (List.take n fc).length = n := by rw [List.length_take]; omega
  unfold copyHeader
  simp only [hs, read_good fc 10 4 (by omega), intOfBytes_field fc 10 n hn hmax, hs0,
    Int.toNat_ofNat, read_good fc 0 n (by omega), List.drop_zero, hl, lt_irrefl, if_false,
    Nat.zero_add]
  rw [if_neg (by omega)]

theorem getDimension_good (fc : List Byte) (p w h : Nat) (h26 : 26 ≤ fc.length)
    (hw : fieldAt fc 18 = w) (hh : fieldAt fc 22 = h)
    (hwmax : w ≤ 2147483647) (hhmax : h ≤ 2147483647) :
    getDimension { content := fc, pos := p, failed := false } =
      ((w : Int), (h : Int), { content := fc, pos := 26, failed := false }) := by
  have hs : IfStream.seekg { content := fc, pos := p, failed := false } DIMENSIONES =
      { content := fc, pos := 18, failed := false } := seekg_good fc p 18
  unfold getDimension
  simp only [hs, read_good fc 18 4 (by omega), read_good fc (18 + 4) 4 (by omega),
    intOfBytes_field fc 18 w hw hwmax, intOfBytes_field fc 22 h hh hhmax]

theorem lineOffset_natCast (w : Nat) (hw : w * 3 ≤ 2147483647) :
    lineOffset (w : Int) = some (((4 - w * 3 % 4) % 4 : Nat) : Int) := by
  have hc : checkedInt ((w : Int) * 3) = some ((w * 3 : Nat) : Int) := by
    rw [← checkedInt_natCast (w * 3) hw]; push_cast; rfl
  have ht : Int.tmod ((w * 3 : Nat) : Int) 4 = ((w * 3 % 4 : Nat) : Int) :=
    (Int.ofNat_tmod (w * 3) 4).symm
  unfold lineOffset
  simp only [hc, ht]
  congr 1
  split_ifs <;> omega

/-! ## Rows -/

theorem greyRows_take (w fill : Nat) :
    ∀ (h m : Nat) (l : List Byte), h * (3 * w + fill) ≤ m →
      greyRows w fill h (l.take m) = greyRows w fill h l := by
  intro h
  induction h with
  | zero => intro m l _; simp [greyRows]
  | succ h ih =>
    intro m l hm
    have e : (h + 1) * (3 * w + fill) = h * (3 * w + fill) + (3 * w + fill) := by ring
    rw [e] at hm
    have ih2 := ih (m - (3 * w + fill)) (l.drop (3 * w + fill)) (by omega)
    rw [greyRows, greyRows, List.take_take, List.drop_take, List.take_take, List.drop_take, ih2,
      Nat.min_eq_left (by omega), Nat.min_eq_left (by omega)]

theorem greyRows_add (w fill : Nat) :
    ∀ (h1 h2 : Nat) (l : List Byte),
      greyRows w fill (h1 + h2) l =
        greyRows w fill h1 l ++ greyRows w fill h2 (l.drop (h1 * (3 * w + fill))) := by
  intro h1
  induction h1 with
  | zero => intro h2 l; simp [greyRows]
  | succ h ih =>
    intro h2 l
    have e : (h + 1) * (3 * w + fill) = (3 * w + fill) + h * (3 * w + fill) := by ring
    rw [show h + 1 + h2 = (h + h2) + 1 by omega, greyRows, greyRows, ih, e, List.drop_drop]
    simp only [List.append_assoc]

theorem greyRows_length (w fill : Nat) :
    ∀ (h : Nat) (l : List Byte), h * (3 * w + fill) ≤ l.length →
      (greyRows w fill h l).length = h * (3 * w + fill) := by
  intro h
  induction h with
  | zero => intro l _; simp [greyRows]
  | succ h ih =>
    intro l hl
    have e : (h + 1) * (3 * w + fill) = h * (3 * w + fill) + (3 * w + fill) := by ring
    rw [e] at hl ⊢
    have ih2 := ih (l.drop (3 * w + fill)) (by rw [List.length_drop]; omega)
    rw [greyRows, List.length_append, List.length_append, greyPixels_length, ih2,
      List.length_take, List.length_take, List.length_drop]
    omega

/-! ## The two conversions on a complete file -/

namespace ColorToGrey

theorem sequential_convertToGrey_good (fc : List Byte) (p : Nat) (dst : List Byte) (n w h : Nat)
    (h26 : 26 ≤ fc.length) (hn : fieldAt fc 10 = n) (hw : fieldAt fc 18 = w)
    (hh : fieldAt fc 22 = h) (hnmax : n ≤ 2147483647) (hwmax : w * 3 ≤ 2147483647)
    (hhmax : h ≤ 2147483647)
    (hlen : n + h * (3 * w + (4 - w * 3 % 4) % 4) ≤ fc.length) :
    convertToGrey { content := fc, pos := p, failed := false } dst =
      some ({ content := fc, pos := n + h * (3 * w + (4 - w * 3 % 4) % 4), failed := false },
        dst ++ fc.take n ++ greyRows w ((4 - w * 3 % 4) % 4) h (fc.drop n)) := by
  have hnl : n ≤ fc.length := le_trans (Nat.le_add_right _ _) hlen
  unfold convertToGrey
  simp only [copyHeader_good fc p dst n (by omega) hn hnmax hnl,
    getDimension_good fc n w h h26 hw hh (by omega) hhmax, lineOffset_natCast w hwmax,
    seekg_good, Int.toNat_ofNat]
  exact rowLoop_good w _ h fc n _ hlen

end ColorToGrey

namespace ColorToGrey_Multithead

theorem readArray_good (fc : List Byte) (p size : Nat) (h : p + size ≤ fc.length) :
    readArray { content := fc, pos := p, failed := false } (size : Int) =
      some ((fc.drop p).take size, { content := fc, pos := p + size, failed := false }) := by
  have hl : ((fc.drop p).take size).length = size := by
    rw [List.length_take, List.length_drop]; omega
  unfold readArray
  rw [if_neg (by omega)]
  simp only [Int.toNat_ofNat, read_good fc p size h, hl, lt_irrefl, if_false]

theorem multithead_convertToGrey_good (fc : List Byte) (p : Nat) (dst : List Byte) (n w h : Nat)
    (h26 : 26 ≤ fc.length) (hn : fieldAt fc 10 = n) (hw : fieldAt fc 18 = w)
    (hh : fieldAt fc 22 = h) (hnmax : n ≤ 2147483647) (hwmax : w * 3 ≤ 2147483647)
    (hhmax : h ≤ 2147483647)
    (hline : 3 * w + (4 - w * 3 % 4) % 4 ≤ 2147483647)
    (hband : (h / 2 + h % 2) * (3 * w + (4 - w * 3 % 4) % 4) ≤ 2147483647)
    (hlen : n + h * (3 * w + (4 - w * 3 % 4) % 4) ≤ fc.length) :
    convertToGrey { content := fc, pos := p, failed := false } dst =
      some ({ content := fc, pos := n + h * (3 * w + (4 - w * 3 % 4) % 4), failed := false },
        dst ++ fc.take n ++ greyRows w ((4 - w * 3 % 4) % 4) h (fc.drop n)) := by
  have hnl : n ≤ fc.length := le_trans (Nat.le_add_right _ _) hlen
  generalize hfill : (4 - w * 3 % 4) % 4 = fill at *
  have hsum : h = (h / 2 + h % 2) + h / 2 := by omega
  have hmul : h * (3 * w + fill) =
      (h / 2 + h % 2) * (3 * w + fill) + h / 2 * (3 * w + fill) := by
    conv_lhs => rw [hsum]
    rw [Nat.add_mul]
  have hle : h / 2 * (3 * w + fill) ≤ (h / 2 + h % 2) * (3 * w + fill) :=
    Nat.mul_le_mul_right _ (Nat.le_add_right _ _)
  have c1 : checkedInt ((w : Int) * 3 + (fill : Int)) = some ((3 * w + fill : Nat) : Int) := by
    rw [← checkedInt_natCast _ hline]; push_cast; ring_nf
  have c2 : checkedInt ((Int.tdiv (h : Int) 2 + Int.tmod (h : Int) 2) *
      ((3 * w + fill : Nat) : Int)) = some (((h / 2 + h % 2) * (3 * w + fill) : Nat) : Int) := by
    rw [← checkedInt_natCast _ hband]; push_cast
    rw [show ((2 : Int)) = ((2 : Nat) : Int) from rfl, ← Int.ofNat_tdiv, ← Int.ofNat_tmod]
    push_cast; rfl
  have c3 : checkedInt (Int.tdiv (h : Int) 2 * ((3 * w + fill : Nat) : Int)) =
      some ((h / 2 * (3 * w + fill) : Nat) : Int) := by
    rw [← checkedInt_natCast _ (le_trans hle hband)]; push_cast
    rw [show ((2 : Int)) = ((2 : Nat) : Int) from rfl, ← Int.ofNat_tdiv]
    push_cast; rfl
  have e1 : Int.tdiv (h : Int) 2 + Int.tmod (h : Int) 2 = ((h / 2 + h % 2 : Nat) : Int) := by
    rw [show ((2 : Int)) = ((2 : Nat) : Int) from rfl, ← Int.ofNat_tdiv, ← Int.ofNat_tmod]
    push_cast; rfl
  have e2 : Int.tdiv (h : Int) 2 = ((h / 2 : Nat) : Int) := by
    rw [show ((2 : Int)) = ((2 : Nat) : Int) from rfl, ← Int.ofNat_tdiv]
  have e3 : ((h / 2 : Nat) : Int) + Int.tmod (h : Int) 2 = ((h / 2 + h % 2 : Nat) : Int) := by
    rw [← e2, e1]
  unfold convertToGrey
  simp only [copyHeader_good fc p dst n (by omega) hn hnmax hnl,
    getDimension_good fc n w h h26 hw hh (by omega) hhmax, lineOffset_natCast w hwmax, hfill,
    seekg_good, c1, c2, c3]
  rw [hmul] at hlen
  generalize hA : (h / 2 + h % 2) * (3 * w + fill) = A at *
  generalize hB : h / 2 * (3 * w + fill) = B at *
  have l1 : ((fc.drop n).take A).length = (h / 2 + h % 2) * (3 * w + fill) := by
    rw [List.length_take, List.length_drop, hA]; omega
  have l2 : ((fc.drop (n + A)).take B).length = h / 2 * (3 * w + fill) := by
    rw [List.length_take, List.length_drop, hB]; omega
  simp only [readArray_good fc n A (by omega), readArray_good fc (n + A) B (by omega), e2, e3,
    rgbToGrey_good w fill (h / 2 + h % 2) _ l1 (by omega),
    rgbToGrey_good w fill (h / 2) _ l2 (by omega)]
  have g1 := greyRows_take w fill (h / 2 + h % 2) A (fc.drop n) (by omega)
  have g2 := greyRows_take w fill (h / 2) B (fc.drop (n + A)) (by omega)
  have g3 := greyRows_add w fill (h / 2 + h % 2) (h / 2) (fc.drop n)
  rw [← hsum, hA, List.drop_drop] at g3
  rw [g1, g2, g3, hmul]
  simp [List.append_assoc, Nat.add_assoc, Nat.add_comm]
  omega

end ColorToGrey_Multithead

/-! ## Bytes of the greyed rows, by position -/

theorem greyPixels_getElem (j : Nat) :
    ∀ (l : List Byte) (k : Nat) (b g r : Byte), k < 3 → l[3 * j]? = some b →
      l[3 * j + 1]? = some g → l[3 * j + 2]? = some r →
      (greyPixels l)[3 * j + k]? = some (grey r g b) := by
  induction j with
  | zero =>
    intro l k b g r hk h0 h1 h2
    match l, h0, h1, h2 with
    | x :: y :: z :: rest, h0, h1, h2 =>
      simp at h0 h1 h2
      subst h0 h1 h2
      rw [greyPixels]
      have : k = 0 ∨ k = 1 ∨ k = 2 := by omega
      rcases this with rfl | rfl | rfl <;> simp
    | [], h0, _, _ => simp at h0
    | [_], _, h1, _ => simp at h1
    | [_, _], _, _, h2 => simp at h2
  | succ j ih =>
    intro l k b g r hk h0 h1 h2
    have e : ∀ t, 3 * (j + 1) + t = (3 * j + t) + 1 + 1 + 1 := by intro t; omega
    have e0 : 3 * (j + 1) = 3 * j + 1 + 1 + 1 := by omega
    match l, h0, h1, h2 with
    | x :: y :: z :: rest, h0, h1, h2 =>
      rw [e] at h1 h2
      rw [e0] at h0
      simp only [List.getElem?_cons_succ] at h0 h1 h2
      rw [greyPixels, e]
      simp only [List.getElem?_cons_succ]
      exact ih rest k b g r hk h0 h1 h2
    | [], h0, _, _ => simp at h0
    | [_], h0, _, _ => rw [e0] at h0; simp at h0
    | [_, _], h0, _, _ => rw [e0] at h0; simp at h0

theorem greyRows_getElem_pixel (w fill : Nat) (i : Nat) :
    ∀ (h : Nat) (l : List Byte) (j k : Nat) (b g r : Byte), i < h → j < w → k < 3 →
      l[i * (3 * w + fill) + 3 * j]? = some b →
      l[i * (3 * w + fill) + 3 * j + 1]? = some g →
      l[i * (3 * w + fill) + 3 * j + 2]? = some r →
      (greyRows w fill h l)[i * (3 * w + fill) + 3 * j + k]? = some (grey r g b) := by
  induction i with
  | zero =>
    intro h l j k b g r hi hj hk h0 h1 h2
    obtain ⟨h', rfl⟩ : ∃ h', h = h' + 1 := ⟨h - 1, by omega⟩
    simp only [Nat.zero_mul, Nat.zero_add] at h0 h1 h2 ⊢
    have hlen : 3 * j + 2 < l.length := by
      by_contra hc
      rw [List.getElem?_eq_none (by omega)] at h2
      exact absurd h2 (by simp)
    have hpl : 3 * j + k < (greyPixels (l.take (3 * w))).length := by
      rw [greyPixels_length, List.length_take]; omega
    rw [greyRows, List.append_assoc, List.getElem?_append_left hpl]
    apply greyPixels_getElem j _ k b g r hk
    · rw [List.getElem?_take_of_lt (by omega)]; exact h0
    · rw [List.getElem?_take_of_lt (by omega)]; exact h1
    · rw [List.getElem?_take_of_lt (by omega)]; exact h2
  | succ i ih =>
    intro h l j k b g r hi hj hk h0 h1 h2
    obtain ⟨h', rfl⟩ : ∃ h', h = h' + 1 := ⟨h - 1, by omega⟩
    have e : (i + 1) * (3 * w + fill) = (3 * w + fill) + i * (3 * w + fill) := by ring
    rw [e] at h0 h1 h2 ⊢
    generalize hX : i * (3 * w + fill) = X at *
    have hlen : 3 * w + fill + X + 3 * j + 2 < l.length := by
      by_contra hc
      rw [List.getElem?_eq_none (by omega)] at h2
      exact absurd h2 (by simp)
    have hfirst : (greyPixels (l.take (3 * w)) ++ (l.drop (3 * w)).take fill).length =
        3 * w + fill := by
      rw [List.length_append, greyPixels_length, List.length_take, List.length_take,
        List.length_drop]
      omega
    rw [greyRows, List.getElem?_append_right (by rw [hfirst]; omega), hfirst]
    have ih2 := ih h' (l.drop (3 * w + fill)) j k b g r (by omega) hj hk
    rw [show 3 * w + fill + X + 3 * j + k - (3 * w + fill) = X + 3 * j + k by omega]
    apply ih2
    · rw [List.getElem?_drop, ← h0]; congr 1; omega
    · rw [List.getElem?_drop, ← h1]; congr 1; omega
    · rw [List.getElem?_drop, ← h2]; congr 1; omega

theorem greyRows_getElem_fill (w fill : Nat) (i : Nat) :
    ∀ (h : Nat) (l : List Byte) (k : Nat), i < h → k < fill →
      (i + 1) * (3 * w + fill) ≤ l.length →
      (greyRows w fill h l)[i * (3 * w + fill) + 3 * w + k]? =
        l[i * (3 * w + fill) + 3 * w + k]? := by
  induction i with
  | zero =>
    intro h l k hi hk hlen
    obtain ⟨h', rfl⟩ : ∃ h', h = h' + 1 := ⟨h - 1, by omega⟩
    simp only [Nat.zero_add, Nat.one_mul, Nat.zero_mul] at hlen ⊢
    have hpl : (greyPixels (l.take (3 * w))).length = 3 * w := by
      rw [greyPixels_length, List.length_take]; omega
    have hfl : k < ((l.drop (3 * w)).take fill).length := by
      rw [List.length_take, List.length_drop]; omega
    rw [greyRows, List.append_assoc, List.getElem?_append_right (by omega), hpl,
      List.getElem?_append_left (by rw [show 3 * w + k - 3 * w = k by omega]; exact hfl),
      List.getElem?_take_of_lt (by omega), List.getElem?_drop]
    congr 1; omega
  | succ i ih =>
    intro h l k hi hk hlen
    obtain ⟨h', rfl⟩ : ∃ h', h = h' + 1 := ⟨h - 1, by omega⟩
    have e : (i + 1) * (3 * w + fill) = (3 * w + fill) + i * (3 * w + fill) := by ring
    have e2 : (i + 1 + 1) * (3 * w + fill) =
        (3 * w + fill) + ((3 * w + fill) + i * (3 * w + fill)) := by ring
    rw [e2] at hlen
    rw [e]
    have ih2 := ih h' (l.drop (3 * w + fill)) k (by omega) hk
    rw [e] at ih2
    generalize hX : i * (3 * w + fill) = X at *
    have hfirst : (greyPixels (l.take (3 * w)) ++ (l.drop (3 * w)).take fill).length =
        3 * w + fill := by
      rw [List.length_append, greyPixels_length, List.length_take, List.length_take,
        List.length_drop]
      omega
    rw [greyRows, List.getElem?_append_right (by rw [hfirst]; omega), hfirst,
      show 3 * w + fill + X + 3 * w + k - (3 * w + fill) = X + 3 * w + k by omega,
      ih2 (by rw [List.length_drop]; omega), List.getElem?_drop]
    congr 1; omega

/-! ## `rgbToGrey` stays within `int` -/

namespace ColorToGrey_Multithead

theorem rgbToGreyPixel_idx (a a1 : List Byte) (idx idx1 : Int)
    (h : rgbToGreyPixel a idx = some (a1, idx1)) : idx1 = idx + 3 ∧ idx1 ≤ 2147483647 := by
  unfold rgbToGreyPixel at h
  split_ifs at h with hc
  unfold INT_MAX at hc
  split at h
  · simp only [Option.some.injEq, Prod.mk.injEq] at h
    omega
  · exact absurd h (by simp)

theorem rgbToGreyLine_idx (n : Nat) :
    ∀ (a a1 : List Byte) (idx idx1 : Int), rgbToGreyLine n a idx = some (a1, idx1) →
      idx1 = idx + 3 * (n : Int) ∧ (idx ≤ 2147483647 → idx1 ≤ 2147483647) := by
  induction n with
  | zero =>
    intro a a1 idx idx1 h
    simp only [rgbToGreyLine, Option.some.injEq, Prod.mk.injEq] at h
    omega
  | succ n ih =>
    intro a a1 idx idx1 h
    rw [rgbToGreyLine] at h
    split at h
    · exact absurd h (by simp)
    · rename_i a2 idx2 hp
      have h1 := rgbToGreyPixel_idx a a2 idx idx2 hp
      have h2 := ih a2 a1 idx2 idx1 h
      push_cast
      omega

theorem rgbToGreyLines_idx (w fill : Nat) (h : Nat) :
    ∀ (a a1 : List Byte) (idx idx1 : Int),
      rgbToGreyLines (w : Int) (fill : Int) h a idx = some (a1, idx1) →
      idx1 = idx + ((h * (3 * w + fill) : Nat) : Int) ∧
        (idx ≤ 2147483647 → idx1 ≤ 2147483647) := by
  induction h with
  | zero =>
    intro a a1 idx idx1 hs
    simp only [rgbToGreyLines, Option.some.injEq, Prod.mk.injEq] at hs
    simp only [Nat.zero_mul, Nat.cast_zero]
    omega
  | succ h ih =>
    intro a a1 idx idx1 hs
    rw [rgbToGreyLines] at hs
    split at hs
    · exact absurd hs (by simp)
    · rename_i a2 idx2 hl
      split at hs
      · exact absurd hs (by simp)
      · rename_i idx3 hc
        have h1 := rgbToGreyLine_idx _ a a2 idx idx2 hl
        have h2 := ih a2 a1 idx3 idx1 hs
        rw [Int.toNat_ofNat] at h1
        have h3 : idx3 = idx2 + (fill : Int) ∧ idx3 ≤ 2147483647 := by
          unfold checkedInt INT_MAX INT_MIN at hc
          split_ifs at hc with hr
          simp only [Option.some.injEq] at hc
          omega
        have e : (((h + 1) * (3 * w + fill) : Nat) : Int) =
            ((h * (3 * w + fill) : Nat) : Int) + (3 * (w : Int) + (fill : Int)) := by
          push_cast; ring
        rw [e]
        omega

theorem rgbToGrey_none_of_large (buf : List Byte) (h w fill : Nat)
    (hbig : 2147483647 < h * (3 * w + fill)) :
    rgbToGrey buf (h : Int) (w : Int) (fill : Int) = none := by
  unfold rgbToGrey
  rw [Int.toNat_ofNat]
  cases hs : rgbToGreyLines (w : Int) (fill : Int) h buf 0 with
  | none => rfl
  | some res =>
    obtain ⟨a1, idx1⟩ := res
    have := rgbToGreyLines_idx w fill h buf a1 0 idx1 hs
    omega

end ColorToGrey_Multithead

/-! ## Facts about the sample files -/

theorem sampleBmp_fields : sampleBmp.length = 70 ∧ fieldAt sampleBmp 10 = 54 ∧
    fieldAt sampleBmp 18 = 2 ∧ fieldAt sampleBmp 22 = 2 := by decide

theorem zeroFilled_length (header : List Byte) (count : Nat) :
    (zeroFilled header count).length = header.length + count := by
  rw [zeroFilled, List.length_append, List.length_replicate]

theorem fieldAt_append (header rest : List Byte) (offset : Nat)
    (h : offset + 4 ≤ header.length) : fieldAt (header ++ rest) offset = fieldAt header offset := by
  unfold fieldAt
  rw [List.drop_append_of_le_length (by omega),
    List.take_append_of_le_length (by rw [List.length_drop]; omega)]

theorem wideHeader_fields : wideHeader.length = 54 ∧ fieldAt wideHeader 10 = 54 ∧
    fieldAt wideHeader 18 = 715827882 ∧ fieldAt wideHeader 22 = 1 := by decide

theorem farHeader_fields : farHeader.length = 54 ∧ fieldAt farHeader 10 = 2147483648 := by
  decide

/-! ## The claims: grey value and row padding -/

/-- C3 (counterexample). For r = 0, g = 27, b = 8 the exact value 0.21*r + 0.72*g + 0.07*b is
20, but the binary64 sum that `grey` truncates is just below 20: the code yields 19, not
floor((21*r + 72*g + 7*b) / 100) = 20. -/
theorem grey_differs_from_exact_floor :
    grey 0 27 8 = 19 ∧ greyValue 0 27 8 = 19 ∧ (21 * 0 + 72 * 27 + 7 * 8) / 100 = 20 := by
  decide!

/-- C3 (amended). For all bytes r, g, b the byte returned by `grey` is the integer part of the
binary64 evaluation of 0.21*r + 0.72*g + 0.07*b; it never exceeds
floor((21*r + 72*g + 7*b) / 100), is at most one below it, and equals it whenever
21*r + 72*g + 7*b is not a multiple of 100. -/
theorem grey_near_exact_floor (r g b : Byte) :
    (grey r g b).val = greyValue r g b ∧
    (grey r g b).val ≤ (21 * r.val + 72 * g.val + 7 * b.val) / 100 ∧
    (21 * r.val + 72 * g.val + 7 * b.val) / 100 ≤ (grey r g b).val + 1 ∧
    ((21 * r.val + 72 * g.val + 7 * b.val) % 100 ≠ 0 →
      (grey r g b).val = (21 * r.val + 72 * g.val + 7 * b.val) / 100) := by
  have hr := r.isLt
  have hg := g.isLt
  have hb := b.isLt
  obtain ⟨h1, h2, h3⟩ := greyValue_error r g b
  have hv : (grey r g b).val = greyValue r g b := by
    show greyValue r g b % 256 = greyValue r g b
    apply Nat.mod_eq_of_lt
    omega
  rw [hv]
  exact ⟨rfl, h1, h2, h3⟩

/-- C3 (amended), at r = 255, g = 0, b = 0: 21*255 = 5355 is not a multiple of 100 and `grey`
returns 53. -/
theorem grey_near_exact_floor_witness :
    (grey 255 0 0).val = (21 * (255 : Byte).val + 72 * (0 : Byte).val + 7 * (0 : Byte).val) / 100 :=
  (grey_near_exact_floor 255 0 0).2.2.2 (by decide)

/-- C10. For all bytes r, g, b the integer part computed by `grey` is at most 255 (it is a
natural number, so at least 0), hence the byte that is returned carries that very value: it is
not reduced modulo 256. -/
theorem grey_value_fits_byte (r g b : Byte) :
    greyValue r g b ≤ 255 ∧ (grey r g b).val = greyValue r g b := by
  have hr := r.isLt
  have hg := g.isLt
  have hb := b.isLt
  obtain ⟨h1, _, _⟩ := greyValue_error r g b
  have hle : greyValue r g b ≤ 255 := by omega
  refine ⟨hle, ?_⟩
  show greyValue r g b % 256 = greyValue r g b
  exact Nat.mod_eq_of_lt (by omega)

/-- C8 (counterexample). The stored width -1 (bytes `FF FF FF FF`) makes `(width*3) % 4`
equal to -3, so the code computes lineOffset 0, and -3 + 0 is not a multiple of 4. For the
width 715827883 the product `width*3` overflows `int` and no lineOffset is defined. -/
theorem lineOffset_negative_width :
    lineOffset (-1) = some 0 ∧ ¬ (((-1 : Int) * 3 + 0) % 4 = 0) ∧
      ¬ (Int.tmod ((-1 : Int) * 3 + 0) 4 = 0) ∧ lineOffset 715827883 = none := by
  decide

/-- C8 (amended). For all widths W with 0 <= W and W*3 <= 2147483647 (no `int` overflow), the
lineOffset the code computes satisfies (W*3 + lineOffset) mod 4 = 0 and 0 <= lineOffset < 4. -/
theorem lineOffset_pads_to_four (w : Int) (h0 : 0 ≤ w) (hmax : w * 3 ≤ 2147483647) :
    ∃ fill, lineOffset w = some fill ∧ (w * 3 + fill) % 4 = 0 ∧ 0 ≤ fill ∧ fill < 4 := by
  have hc : checkedInt (w * 3) = some (w * 3) := by
    unfold checkedInt INT_MIN INT_MAX
    rw [if_pos]
    omega
  have ht : Int.tmod (w * 3) 4 = (w * 3) % 4 := Int.tmod_eq_emod (by omega) (by omega)
  unfold lineOffset
  simp only [hc, ht]
  refine ⟨_, rfl, ?_, ?_, ?_⟩ <;> split_ifs <;> omega

/-- C8 (amended), at width 2: lineOffset is 2 and 2*3 + 2 = 8. -/
theorem lineOffset_pads_to_four_witness :
    ∃ fill, lineOffset 2 = some fill ∧ ((2 : Int) * 3 + fill) % 4 = 0 ∧ 0 ≤ fill ∧ fill < 4 :=
  lineOffset_pads_to_four 2 (by decide) (by decide)

/-- C9. For every width >= 0 with width*3 <= 2147483647, the lineOffset computed by the code
equals the specification's rowPadding(width) = (4 - (width*3) mod 4) mod 4. -/
theorem lineOffset_eq_rowPadding (w : Int) (h0 : 0 ≤ w) (hmax : w * 3 ≤ 2147483647) :
    lineOffset w = some (rowPadding w) := by
  have hc : checkedInt (w * 3) = some (w * 3) := by
    unfold checkedInt INT_MIN INT_MAX
    rw [if_pos]
    omega
  have ht : Int.tmod (w * 3) 4 = (w * 3) % 4 := Int.tmod_eq_emod (by omega) (by omega)
  unfold lineOffset rowPadding
  simp only [hc, ht]
  congr 1
  split_ifs <;> omega

/-- C9, at width 2: both give 2. -/
theorem lineOffset_eq_rowPadding_witness : lineOffset 2 = some (rowPadding 2) :=
  lineOffset_eq_rowPadding 2 (by decide) (by decide)

/-! ## The format test -/

theorem isBmpFile_good (fc : List Byte) (p : Nat) (h2 : 2 ≤ fc.length) :
    isBmpFile { content := fc, pos := p, failed := false } =
      (some (decide (fc.take 2 = [66, 77])), { content := fc, pos := 2, failed := false }) := by
  have hs : IfStream.seekg { content := fc, pos := p, failed := false } INICIO =
      { content := fc, pos := 0, failed := false } := seekg_good fc p 0
  match fc, h2 with
  | x :: y :: rest, _ =>
    unfold isBmpFile
    simp only [hs, read_good (x :: y :: rest) 0 2 (by simp), List.drop_zero, List.take_succ_cons,
      List.take_zero, Nat.zero_add]
    simp
  | [], h2 => simp at h2
  | [_], h2 => simp at h2

theorem is24Bpp_good (fc : List Byte) (p : Nat) (h30 : 30 ≤ fc.length) :
    is24Bpp { content := fc, pos := p, failed := false } =
      (decide (leValue ((fc.drop 28).take 2) = 24),
        { content := fc, pos := 30, failed := false }) := by
  have hs : IfStream.seekg { content := fc, pos := p, failed := false } BPP =
      { content := fc, pos := 28, failed := false } := seekg_good fc p 28
  have hl : ((fc.drop 28).take 2).length = 2 := by
    rw [List.length_take, List.length_drop]; omega
  have hv : (intOfBytes ((fc.drop 28).take 2) = 24) ↔ (leValue ((fc.drop 28).take 2) = 24) := by
    generalize (fc.drop 28).take 2 = raw at hl
    match raw, hl with
    | [x, y], _ =>
      have hx := x.isLt
      have hy := y.isLt
      unfold intOfBytes asInt32
      simp only [leValue]
      split_ifs <;> omega
  unfold is24Bpp
  simp only [hs, read_good fc 28 2 (by omega), hv]

theorem sequential_main_eq (file : List Byte) (h30 : 30 ≤ file.length) :
    ColorToGrey.main file =
      if file.take 2 = [66, 77] ∧ leValue ((file.drop 28).take 2) = 24 then
        Outcome.created ((ColorToGrey.convertToGrey
          { content := file, pos := 30, failed := false } []).map Prod.snd)
      else Outcome.rejected := by
  unfold ColorToGrey.main IfStream.ofFile
  rw [isBmpFile_good file 0 (by omega)]
  by_cases hm : file.take 2 = [66, 77]
  · simp only [hm, decide_True, true_and, is24Bpp_good file 2 h30]
    by_cases hb : leValue ((file.drop 28).take 2) = 24
    · simp [hb]
    · simp [hb]
  · simp [hm]

theorem multithead_main_eq (file : List Byte) (h30 : 30 ≤ file.length) :
    ColorToGrey_Multithead.main file =
      if file.take 2 = [66, 77] ∧ leValue ((file.drop 28).take 2) = 24 then
        Outcome.created ((ColorToGrey_Multithead.convertToGrey
          { content := file, pos := 30, failed := false } []).map Prod.snd)
      else Outcome.rejected := by
  unfold ColorToGrey_Multithead.main IfStream.ofFile
  rw [isBmpFile_good file 0 (by omega)]
  by_cases hm : file.take 2 = [66, 77]
  · simp only [hm, decide_True, true_and, is24Bpp_good file 2 h30]
    by_cases hb : leValue ((file.drop 28).take 2) = 24
    · simp [hb]
    · simp [hb]
  · simp [hm]

/-- C6. For every source file of at least 30 bytes, either program opens an output file if and
only if the first two bytes are 'B', 'M' and the 2-byte little-endian value at offset 0x1C is
24; in every other case the run is a rejection, with no output file. -/
theorem main_creates_output_iff (file : List Byte) (h30 : 30 ≤ file.length) :
    ((∃ written, ColorToGrey.main file = Outcome.created written) ↔
      (file.take 2 = [66, 77] ∧ leValue ((file.drop 28).take 2) = 24)) ∧
    ((∃ written, ColorToGrey_Multithead.main file = Outcome.created written) ↔
      (file.take 2 = [66, 77] ∧ leValue ((file.drop 28).take 2) = 24)) ∧
    (¬ (file.take 2 = [66, 77] ∧ leValue ((file.drop 28).take 2) = 24) →
      ColorToGrey.main file = Outcome.rejected ∧
        ColorToGrey_Multithead.main file = Outcome.rejected) := by
  rw [sequential_main_eq file h30, multithead_main_eq file h30]
  by_cases hc : file.take 2 = [66, 77] ∧ leValue ((file.drop 28).take 2) = 24
  · simp [hc]
  · simp [hc]

/-- C6, on the 2 x 2 sample image (70 bytes, "BM", 24 bits per pixel): an output file is
created. -/
theorem main_creates_output_iff_witness :
    ∃ written, ColorToGrey.main sampleBmp = Outcome.created written :=
  (main_creates_output_iff sampleBmp (by decide)).1.2 (by decide)

/-! ## The header copy -/

theorem leValue_lt : ∀ l : List Byte, leValue l < 256 ^ l.length
  | [] => by simp [leValue]
  | b :: rest => by
    have hb := b.isLt
    have ih := leValue_lt rest
    rw [leValue, List.length_cons, Nat.pow_succ]
    omega

theorem copyHeader_none_of_large (fc : List Byte) (p : Nat) (dst : List Byte) (n : Nat)
    (h14 : 14 ≤ fc.length) (hn : fieldAt fc 10 = n) (hbig : 2147483648 ≤ n) :
    copyHeader { content := fc, pos := p, failed := false } dst = none := by
  have hs : IfStream.seekg { content := fc, pos := p, failed := false } DATA_OFFSET =
      { content := fc, pos := 10, failed := false } := seekg_good fc p 10
  have hlt : n < 4294967296 := by
    have h := leValue_lt ((fc.drop 10).take 4)
    have hl : ((fc.drop 10).take 4).length = 4 := by
      rw [List.length_take, List.length_drop]; omega
    rw [hl] at h
    unfold fieldAt at hn
    omega
  have hneg : intOfBytes ((fc.drop 10).take 4) < 0 := by
    unfold fieldAt at hn
    unfold intOfBytes asInt32
    rw [hn, if_neg (by omega)]
    omega
  unfold copyHeader
  simp only [hs, read_good fc 10 4 (by omega)]
  rw [if_pos hneg]

namespace ColorToGrey

theorem pixelLoop_appends (n : Nat) :
    ∀ (s : IfStream) (out : List Byte), ∃ rest, (pixelLoop n s out).2 = out ++ rest := by
  induction n with
  | zero => intro s out; exact ⟨[], by simp [pixelLoop]⟩
  | succ n ih =>
    intro s out
    rw [pixelLoop]
    simp only []
    obtain ⟨rest, hrest⟩ := ih (readChannel (readChannel (readChannel s).2).2).2
      (out ++ [grey (readChannel (readChannel (readChannel s).2).2).1
        (readChannel (readChannel s).2).1 (readChannel s).1,
        grey (readChannel (readChannel (readChannel s).2).2).1
        (readChannel (readChannel s).2).1 (readChannel s).1,
        grey (readChannel (readChannel (readChannel s).2).2).1
        (readChannel (readChannel s).2).1 (readChannel s).1])
    exact ⟨_, by rw [hrest, List.append_assoc]⟩

theorem rowLoop_appends (width fill : Int) (n : Nat) :
    ∀ (s s1 : IfStream) (out out1 : List Byte),
      rowLoop width fill n s out = some (s1, out1) → ∃ rest, out1 = out ++ rest := by
  induction n with
  | zero =>
    intro s s1 out out1 h
    simp only [rowLoop, Option.some.injEq, Prod.mk.injEq] at h
    exact ⟨[], by simp [h.2]⟩
  | succ n ih =>
    intro s s1 out out1 h
    rw [rowLoop] at h
    obtain ⟨r1, hr1⟩ := pixelLoop_appends width.toNat s out
    simp only [] at h
    split_ifs at h with hf hshort
    · obtain ⟨r2, hr2⟩ := ih _ _ _ _ h
      exact ⟨_, by rw [hr2, hr1, List.append_assoc, List.append_assoc]⟩
    · obtain ⟨r2, hr2⟩ := ih _ _ _ _ h
      exact ⟨_, by rw [hr2, hr1, List.append_assoc]⟩

theorem sequential_keeps_header (s s1 s2 : IfStream) (dst out1 out : List Byte) (off : Int)
    (hc : copyHeader s dst = some (s1, out1, off))
    (h : convertToGrey s dst = some (s2, out)) : ∃ rest, out = out1 ++ rest := by
  unfold convertToGrey at h
  rw [hc] at h
  simp only [] at h
  split at h
  · exact absurd h (by simp)
  · exact rowLoop_appends _ _ _ _ _ _ _ h

end ColorToGrey

namespace ColorToGrey_Multithead

theorem multithead_keeps_header (s s1 s2 : IfStream) (dst out1 out : List Byte) (off : Int)
    (hc : copyHeader s dst = some (s1, out1, off))
    (h : convertToGrey s dst = some (s2, out)) : ∃ rest, out = out1 ++ rest := by
  unfold convertToGrey at h
  rw [hc] at h
  simp only [] at h
  repeat' split at h
  all_goals (cases h; try exact ⟨_, List.append_assoc _ _ _⟩)

end ColorToGrey_Multithead

/-- C5 (counterexample). A file of 54 + 2147483648 bytes whose offset field holds
2147483648: the declared size does not exceed the length of the file, but read into an `int`
it is negative, and `copyHeader` has no defined result (the array `c[headerSize]` would have a
negative bound). -/
theorem copyHeader_offset_beyond_int :
    fieldAt (zeroFilled farHeader 2147483648) 10 = 2147483648 ∧
    2147483648 ≤ (zeroFilled farHeader 2147483648).length ∧
    copyHeader (IfStream.ofFile (zeroFilled farHeader 2147483648)) [] = none := by
  have hf : fieldAt (zeroFilled farHeader 2147483648) 10 = 2147483648 := by
    rw [zeroFilled, fieldAt_append _ _ _ (by decide)]
    exact farHeader_fields.2
  have hl := zeroFilled_length farHeader 2147483648
  rw [farHeader_fields.1] at hl
  exact ⟨hf, by omega, copyHeader_none_of_large _ 0 [] _ (by omega) hf (le_refl _)⟩

/-- C5 (amended). For every source of at least 14 bytes whose declared header size N (the
4-byte value at offset 0x0A) is at most 2147483647 and does not exceed the source length,
`copyHeader` appends exactly N bytes to the destination, the first N bytes of the source, and
returns N; whatever either `convertToGrey` then writes starts with those N bytes. -/
theorem copyHeader_writes_first_bytes (fc : List Byte) (p : Nat) (dst : List Byte) (n : Nat)
    (h14 : 14 ≤ fc.length) (hn : fieldAt fc 10 = n) (hmax : n ≤ 2147483647)
    (hlen : n ≤ fc.length) :
    copyHeader { content := fc, pos := p, failed := false } dst =
      some ({ content := fc, pos := n, failed := false }, dst ++ fc.take n, (n : Int)) ∧
    (fc.take n).length = n ∧
    (∀ s out, ColorToGrey.convertToGrey { content := fc, pos := p, failed := false } dst =
      some (s, out) → ∃ rest, out = dst ++ fc.take n ++ rest) ∧
    (∀ s out, ColorToGrey_Multithead.convertToGrey
      { content := fc, pos := p, failed := false } dst = some (s, out) →
      ∃ rest, out = dst ++ fc.take n ++ rest) := by
  have hc := copyHeader_good fc p dst n h14 hn hmax hlen
  refine ⟨hc, by rw [List.length_take]; omega, ?_, ?_⟩
  · intro s out h
    exact ColorToGrey.sequential_keeps_header _ _ _ _ _ _ _ hc h
  · intro s out h
    exact ColorToGrey_Multithead.multithead_keeps_header _ _ _ _ _ _ _ hc h

/-- C5 (amended), on the 2 x 2 sample image: the 54 declared bytes are copied. -/
theorem copyHeader_writes_first_bytes_witness :
    copyHeader { content := sampleBmp, pos := 0, failed := false } [] =
      some ({ content := sampleBmp, pos := 54, failed := false }, [] ++ sampleBmp.take 54,
        ((54 : Nat) : Int)) :=
  (copyHeader_writes_first_bytes sampleBmp 0 [] 54 (by decide) (by decide) (by decide)
    (by decide)).1

/-! ## The claims: the two conversions -/

theorem greyRows_row (w fill i h : Nat) (l : List Byte) (hi : i < h)
    (hl : h * (3 * w + fill) ≤ l.length) :
    ((greyRows w fill h l).drop (i * (3 * w + fill))).take (3 * w + fill) =
      greyRows w fill 1 (l.drop (i * (3 * w + fill))) := by
  have hh : h = i + (1 + (h - i - 1)) := by omega
  have hmul : h * (3 * w + fill) =
      i * (3 * w + fill) + ((3 * w + fill) + (h - i - 1) * (3 * w + fill)) := by
    conv_lhs => rw [hh]
    ring
  rw [hmul] at hl
  have l1 : (greyRows w fill i l).length = i * (3 * w + fill) :=
    greyRows_length w fill i l (by omega)
  have l2 : (greyRows w fill 1 (l.drop (i * (3 * w + fill)))).length = 3 * w + fill := by
    rw [greyRows_length w fill 1 _ (by rw [List.length_drop]; omega)]; omega
  rw [hh, greyRows_add, greyRows_add, List.drop_left' l1, List.take_left' l2]

theorem rowPadding_natCast (w : Nat) :
    rowPadding (w : Int) = (((4 - w * 3 % 4) % 4 : Nat) : Int) := by
  unfold rowPadding
  omega

namespace ColorToGrey_Multithead

theorem convertToGrey_none_of_long_line (fc : List Byte) (p : Nat) (dst : List Byte)
    (n w h : Nat) (h26 : 26 ≤ fc.length) (hn : fieldAt fc 10 = n) (hw : fieldAt fc 18 = w)
    (hh : fieldAt fc 22 = h) (hnmax : n ≤ 2147483647) (hnlen : n ≤ fc.length)
    (hwmax : w * 3 ≤ 2147483647) (hhmax : h ≤ 2147483647)
    (hline : 2147483647 < 3 * w + (4 - w * 3 % 4) % 4) :
    convertToGrey { content := fc, pos := p, failed := false } dst = none := by
  have c1 : checkedInt ((w : Int) * 3 + (((4 - w * 3 % 4) % 4 : Nat) : Int)) = none := by
    unfold checkedInt INT_MIN INT_MAX
    rw [if_neg]
    omega
  unfold convertToGrey
  simp only [copyHeader_good fc p dst n (by omega) hn hnmax hnlen,
    getDimension_good fc n w h h26 hw hh (by omega) hhmax, lineOffset_natCast w hwmax, c1]

end ColorToGrey_Multithead

theorem wideBmp_facts :
    26 ≤ (zeroFilled wideHeader 2147483648).length ∧
    fieldAt (zeroFilled wideHeader 2147483648) 10 = 54 ∧
    fieldAt (zeroFilled wideHeader 2147483648) 18 = 715827882 ∧
    fieldAt (zeroFilled wideHeader 2147483648) 22 = 1 ∧
    (zeroFilled wideHeader 2147483648).length = 54 + 1 * (3 * 715827882 + 2) := by
  have hl := zeroFilled_length wideHeader 2147483648
  obtain ⟨h54, h10, h18, h22⟩ := wideHeader_fields
  rw [h54] at hl
  refine ⟨by omega, ?_, ?_, ?_, by omega⟩
  · rw [zeroFilled, fieldAt_append _ _ _ (by omega)]; exact h10
  · rw [zeroFilled, fieldAt_append _ _ _ (by omega)]; exact h18
  · rw [zeroFilled, fieldAt_append _ _ _ (by omega)]; exact h22

theorem wideBmp_multithead_none :
    ColorToGrey_Multithead.convertToGrey (IfStream.ofFile (zeroFilled wideHeader 2147483648)) [] =
      none := by
  obtain ⟨h26, h10, h18, h22, hlen⟩ := wideBmp_facts
  exact ColorToGrey_Multithead.convertToGrey_none_of_long_line _ 0 [] 54 715827882 1 h26 h10 h18
    h22 (by omega) (by omega) (by omega) (by omega) (by omega)

theorem wideBmp_sequential_some :
    ∃ s out, ColorToGrey.convertToGrey (IfStream.ofFile (zeroFilled wideHeader 2147483648)) [] =
      some (s, out) := by
  obtain ⟨h26, h10, h18, h22, hlen⟩ := wideBmp_facts
  exact ⟨_, _, ColorToGrey.sequential_convertToGrey_good _ 0 [] 54 715827882 1 h26 h10 h18 h22 (by omega)
    (by omega) (by omega) (by omega)⟩

/-- C1 (counterexample). A complete 24bpp image of one row of 715827882 pixels (54 header
bytes, 2147483646 pixel bytes, 2 filler bytes; width >= 0, height >= 0, all declared bytes
present): the sequential `convertToGrey` writes its output, the two-band `convertToGrey`
overflows `int` in `width*3 + lineOffset` and has no defined output. -/
theorem wide_image_strategies_differ :
    fieldAt (zeroFilled wideHeader 2147483648) 10 = 54 ∧
    fieldAt (zeroFilled wideHeader 2147483648) 18 = 715827882 ∧
    fieldAt (zeroFilled wideHeader 2147483648) 22 = 1 ∧
    54 + 1 * (3 * 715827882 + 2) ≤ (zeroFilled wideHeader 2147483648).length ∧
    ColorToGrey.convertToGrey (IfStream.ofFile (zeroFilled wideHeader 2147483648)) [] ≠
      ColorToGrey_Multithead.convertToGrey
        (IfStream.ofFile (zeroFilled wideHeader 2147483648)) [] := by
  obtain ⟨h26, h10, h18, h22, hlen⟩ := wideBmp_facts
  refine ⟨h10, h18, h22, by omega, ?_⟩
  obtain ⟨s, out, hs⟩ := wideBmp_sequential_some
  rw [hs, wideBmp_multithead_none]
  simp

/-- C1 (amended). For every 24bpp BMP input whose header fields are present, with width >= 0,
height >= 0, declared pixel-data offset N <= 2147483647, at least
N + height*(3*width + padding) bytes present, and whose row length 3*width + padding and
first-band size ceil(height/2)*(3*width + padding) do not exceed 2147483647, the sequential
`convertToGrey` and the two-band `convertToGrey` write the same byte sequence. -/
theorem strategies_write_same_bytes (fc : List Byte) (p : Nat) (dst : List Byte) (n w h : Nat)
    (h26 : 26 ≤ fc.length) (hn : fieldAt fc 10 = n) (hw : fieldAt fc 18 = w)
    (hh : fieldAt fc 22 = h) (hnmax : n ≤ 2147483647) (hhmax : h ≤ 2147483647)
    (hline : 3 * w + (4 - w * 3 % 4) % 4 ≤ 2147483647)
    (hband : (h / 2 + h % 2) * (3 * w + (4 - w * 3 % 4) % 4) ≤ 2147483647)
    (hlen : n + h * (3 * w + (4 - w * 3 % 4) % 4) ≤ fc.length) :
    ∃ s written,
      ColorToGrey.convertToGrey { content := fc, pos := p, failed := false } dst =
        some (s, dst ++ written) ∧
      ColorToGrey_Multithead.convertToGrey { content := fc, pos := p, failed := false } dst =
        some (s, dst ++ written) := by
  refine ⟨{ content := fc, pos := n + h * (3 * w + (4 - w * 3 % 4) % 4), failed := false },
    fc.take n ++ greyRows w ((4 - w * 3 % 4) % 4) h (fc.drop n), ?_, ?_⟩
  · rw [ColorToGrey.sequential_convertToGrey_good fc p dst n w h h26 hn hw hh hnmax (by omega) hhmax hlen,
      List.append_assoc]
  · rw [ColorToGrey_Multithead.multithead_convertToGrey_good fc p dst n w h h26 hn hw hh hnmax (by omega)
      hhmax hline hband hlen, List.append_assoc]

/-- C1 (amended), on the 2 x 2 sample image. -/
theorem strategies_write_same_bytes_witness :
    ∃ s written,
      ColorToGrey.convertToGrey { content := sampleBmp, pos := 0, failed := false } [] =
        some (s, [] ++ written) ∧
      ColorToGrey_Multithead.convertToGrey { content := sampleBmp, pos := 0, failed := false }
        [] = some (s, [] ++ written) :=
  strategies_write_same_bytes sampleBmp 0 [] 54 2 2 (by decide) (by decide) (by decide)
    (by decide) (by decide) (by decide) (by decide) (by decide) (by decide)

theorem row_index_lt (h R i x : Nat) (hi : i < h) (hx : x < R) : i * R + x < h * R := by
  have h1 : (i + 1) * R ≤ h * R := Nat.mul_le_mul_right R hi
  rw [Nat.add_mul, Nat.one_mul] at h1
  omega

/-- C7 (counterexample). On the complete one-row image of 715827882 pixels the two-band
`convertToGrey` has no output at all, so not one of the claimed length. -/
theorem wide_image_two_band_no_output :
    fieldAt (zeroFilled wideHeader 2147483648) 18 = 715827882 ∧
    fieldAt (zeroFilled wideHeader 2147483648) 22 = 1 ∧
    (zeroFilled wideHeader 2147483648).length = 54 + 1 * (3 * 715827882 + 2) ∧
    ∀ s out, ColorToGrey_Multithead.convertToGrey
      (IfStream.ofFile (zeroFilled wideHeader 2147483648)) [] ≠ some (s, out) := by
  obtain ⟨_, _, h18, h22, hlen⟩ := wideBmp_facts
  refine ⟨h18, h22, hlen, ?_⟩
  intro s out
  rw [wideBmp_multithead_none]
  simp

/-- C7 (amended). For every 24bpp BMP input whose header fields are present, with header size
N <= 2147483647, width >= 0, height >= 0, all N + height*(3*width + rowPadding(width)) bytes
present, and row length and first-band size at most 2147483647, both strategies write the same
output; its length is exactly N + height*(3*width + rowPadding(width)); row i of its pixel
region lies at the byte range of row i of the input and is what `rgbToGrey` makes of that one
input row; when the input is exactly header plus pixel region the output is as long as the
input. -/
theorem output_length_and_rows (fc : List Byte) (p n w h : Nat)
    (h26 : 26 ≤ fc.length) (hn : fieldAt fc 10 = n) (hw : fieldAt fc 18 = w)
    (hh : fieldAt fc 22 = h) (hnmax : n ≤ 2147483647) (hhmax : h ≤ 2147483647)
    (hline : 3 * w + (4 - w * 3 % 4) % 4 ≤ 2147483647)
    (hband : (h / 2 + h % 2) * (3 * w + (4 - w * 3 % 4) % 4) ≤ 2147483647)
    (hlen : n + h * (3 * w + (4 - w * 3 % 4) % 4) ≤ fc.length) :
    ∃ s out,
      ColorToGrey.convertToGrey { content := fc, pos := p, failed := false } [] =
        some (s, out) ∧
      ColorToGrey_Multithead.convertToGrey { content := fc, pos := p, failed := false } [] =
        some (s, out) ∧
      (out.length : Int) = (n : Int) + (h : Int) * (3 * (w : Int) + rowPadding (w : Int)) ∧
      (∀ i, i < h →
        ColorToGrey_Multithead.rgbToGrey
          ((fc.drop (n + i * (3 * w + (4 - w * 3 % 4) % 4))).take (3 * w + (4 - w * 3 % 4) % 4))
          1 (w : Int) (rowPadding (w : Int)) =
        some ((out.drop (n + i * (3 * w + (4 - w * 3 % 4) % 4))).take
          (3 * w + (4 - w * 3 % 4) % 4))) ∧
      (fc.length = n + h * (3 * w + (4 - w * 3 % 4) % 4) → out.length = fc.length) := by
  have hseq := ColorToGrey.sequential_convertToGrey_good fc p [] n w h h26 hn hw hh hnmax (by omega)
    hhmax hlen
  have hpar := ColorToGrey_Multithead.multithead_convertToGrey_good fc p [] n w h h26 hn hw hh hnmax
    (by omega) hhmax hline hband hlen
  rw [rowPadding_natCast]
  generalize (4 - w * 3 % 4) % 4 = fill at *
  have htake : (fc.take n).length = n := by rw [List.length_take]; omega
  have hrows : (greyRows w fill h (fc.drop n)).length = h * (3 * w + fill) :=
    greyRows_length w fill h _ (by rw [List.length_drop]; omega)
  have hout : ([] ++ fc.take n ++ greyRows w fill h (fc.drop n)).length =
      n + h * (3 * w + fill) := by
    rw [List.nil_append, List.length_append, htake, hrows]
  refine ⟨_, _, hseq, hpar, ?_, ?_, ?_⟩
  · rw [hout]; push_cast; ring
  · intro i hi
    have hlt : i * (3 * w + fill) + (3 * w + fill) ≤ h * (3 * w + fill) := by
      have h1 : (i + 1) * (3 * w + fill) ≤ h * (3 * w + fill) := Nat.mul_le_mul_right _ hi
      rw [Nat.add_mul, Nat.one_mul] at h1
      exact h1
    have hrowlen : ((fc.drop (n + i * (3 * w + fill))).take (3 * w + fill)).length =
        1 * (3 * w + fill) := by
      rw [List.length_take, List.length_drop]; omega
    have hgood := ColorToGrey_Multithead.rgbToGrey_good w fill 1 _ hrowlen (by omega)
    rw [Nat.cast_one] at hgood
    have hrhs : (([] ++ fc.take n ++ greyRows w fill h (fc.drop n)).drop
        (n + i * (3 * w + fill))).take (3 * w + fill) =
        greyRows w fill 1 (fc.drop (n + i * (3 * w + fill))) := by
      rw [List.nil_append, ← List.drop_drop, List.drop_left' htake,
        greyRows_row w fill i h _ hi (by rw [List.length_drop]; omega), List.drop_drop]
    rw [hgood, hrhs, greyRows_take w fill 1 _ _ (by omega)]
  · intro hfc
    rw [hout, hfc]

/-- C7 (amended), on the 2 x 2 sample image: 70 bytes in, 70 bytes out. -/
theorem output_length_and_rows_witness :
    ∃ s out,
      ColorToGrey.convertToGrey { content := sampleBmp, pos := 0, failed := false } [] =
        some (s, out) ∧
      ColorToGrey_Multithead.convertToGrey { content := sampleBmp, pos := 0, failed := false }
        [] = some (s, out) ∧
      out.length = sampleBmp.length := by
  obtain ⟨s, out, h1, h2, _, _, h5⟩ := output_length_and_rows sampleBmp 0 54 2 2 (by decide)
    (by decide) (by decide) (by decide) (by decide) (by decide) (by decide) (by decide)
    (by decide)
  exact ⟨s, out, h1, h2, h5 (by decide)⟩

theorem sequential_on_region (fc buf : List Byte) (p n w h fill : Nat)
    (h26 : 26 ≤ fc.length) (hn : fieldAt fc 10 = n) (hw : fieldAt fc 18 = w)
    (hh : fieldAt fc 22 = h) (hnmax : n ≤ 2147483647) (hwmax : w * 3 ≤ 2147483647)
    (hhmax : h ≤ 2147483647) (hfill : fill = (4 - w * 3 % 4) % 4)
    (hbuf : buf.length = h * (3 * w + fill)) (hpos : 0 < h * (3 * w + fill))
    (hregion : (fc.drop n).take (h * (3 * w + fill)) = buf) :
    ∃ s out, ColorToGrey.convertToGrey { content := fc, pos := p, failed := false } [] =
        some (s, out) ∧
      ∀ x, out[n + x]? = (greyRows w fill h buf)[x]? := by
  subst hfill
  have hlen : n + h * (3 * w + (4 - w * 3 % 4) % 4) ≤ fc.length := by
    rw [← hregion, List.length_take, List.length_drop] at hbuf
    omega
  have hseq := ColorToGrey.sequential_convertToGrey_good fc p [] n w h h26 hn hw hh hnmax hwmax hhmax hlen
  have htake : (fc.take n).length = n := by rw [List.length_take]; omega
  refine ⟨_, _, hseq, ?_⟩
  intro x
  rw [List.nil_append, List.getElem?_append_right (by omega), htake, ← hregion,
    greyRows_take w _ h _ _ (le_refl _)]
  congr 1
  omega

/-- C2 (counterexample). A pixel buffer of 700000 rows of 1024 pixels (2150400000 bytes, no
filler): `idx` would have to pass 2147483647, and `rgbToGrey` has no defined result. -/
theorem rgbToGrey_large_buffer :
    (List.replicate 2150400000 (0 : Byte)).length = 700000 * (3 * 1024 + 0) ∧
    ColorToGrey_Multithead.rgbToGrey (List.replicate 2150400000 (0 : Byte)) 700000 1024 0 =
      none :=
  ⟨by rw [List.length_replicate],
    ColorToGrey_Multithead.rgbToGrey_none_of_large _ 700000 1024 0 (by omega)⟩

/-- C2 (amended). Let a pixel buffer hold height rows of width pixels with lineOffset filler
bytes per row, and let B, G, R be its bytes at offsets 0, 1, 2 of pixel j of row i. If the
buffer has at most 2147483647 bytes, then after `rgbToGrey` the three bytes of that pixel all
equal grey(R, G, B). If the buffer is the pixel region of a source file whose header fields
are present (offset N <= 2147483647, width*3 <= 2147483647, lineOffset the padding of that
width), the sequential `convertToGrey` writes those same three bytes for that pixel, N bytes
further on. -/
theorem pixel_bytes_are_grey (buf : List Byte) (h w fill i j : Nat)
    (hbuf : buf.length = h * (3 * w + fill)) (hi : i < h) (hj : j < w) :
    ∃ b g r,
      buf[i * (3 * w + fill) + 3 * j]? = some b ∧
      buf[i * (3 * w + fill) + 3 * j + 1]? = some g ∧
      buf[i * (3 * w + fill) + 3 * j + 2]? = some r ∧
      (h * (3 * w + fill) ≤ 2147483647 →
        ∃ out, ColorToGrey_Multithead.rgbToGrey buf (h : Int) (w : Int) (fill : Int) = some out ∧
          out[i * (3 * w + fill) + 3 * j]? = some (grey r g b) ∧
          out[i * (3 * w + fill) + 3 * j + 1]? = some (grey r g b) ∧
          out[i * (3 * w + fill) + 3 * j + 2]? = some (grey r g b)) ∧
      (∀ (fc : List Byte) (p n : Nat), 26 ≤ fc.length → fieldAt fc 10 = n →
        fieldAt fc 18 = w → fieldAt fc 22 = h → n ≤ 2147483647 → w * 3 ≤ 2147483647 →
        h ≤ 2147483647 → fill = (4 - w * 3 % 4) % 4 →
        (fc.drop n).take (h * (3 * w + fill)) = buf →
        ∃ s out, ColorToGrey.convertToGrey { content := fc, pos := p, failed := false } [] =
            some (s, out) ∧
          out[n + (i * (3 * w + fill) + 3 * j)]? = some (grey r g b) ∧
          out[n + (i * (3 * w + fill) + 3 * j + 1)]? = some (grey r g b) ∧
          out[n + (i * (3 * w + fill) + 3 * j + 2)]? = some (grey r g b)) := by
  have hlt : i * (3 * w + fill) + (3 * j + 2) < h * (3 * w + fill) :=
    row_index_lt h _ i _ hi (by omega)
  have h0 : i * (3 * w + fill) + 3 * j < buf.length := by omega
  have h1 : i * (3 * w + fill) + 3 * j + 1 < buf.length := by omega
  have h2 : i * (3 * w + fill) + 3 * j + 2 < buf.length := by omega
  have e0 := List.getElem?_eq_getElem h0
  have e1 := List.getElem?_eq_getElem h1
  have e2 := List.getElem?_eq_getElem h2
  have p0 := greyRows_getElem_pixel w fill i h buf j 0 _ _ _ hi hj (by omega) e0 e1 e2
  have p1 := greyRows_getElem_pixel w fill i h buf j 1 _ _ _ hi hj (by omega) e0 e1 e2
  have p2 := greyRows_getElem_pixel w fill i h buf j 2 _ _ _ hi hj (by omega) e0 e1 e2
  refine ⟨_, _, _, e0, e1, e2, ?_, ?_⟩
  · intro hmax
    exact ⟨_, ColorToGrey_Multithead.rgbToGrey_good w fill h buf hbuf hmax, p0, p1, p2⟩
  · intro fc p n h26 hn hw hh hnmax hwmax hhmax hfill hregion
    obtain ⟨s, out, hs, hx⟩ := sequential_on_region fc buf p n w h fill h26 hn hw hh hnmax
      hwmax hhmax hfill hbuf (by omega) hregion
    exact ⟨s, out, hs, by rw [hx]; exact p0, by rw [hx]; exact p1, by rw [hx]; exact p2⟩

/-- C2 (amended), on the 2 x 2 sample image, row 1, pixel 1 (white): `rgbToGrey` stores 254
three times, and the sequential `convertToGrey` writes 254 three times, 54 bytes further on. -/
theorem pixel_bytes_are_grey_witness :
    (∃ out, ColorToGrey_Multithead.rgbToGrey samplePixels 2 2 2 = some out ∧
      out[1 * (3 * 2 + 2) + 3 * 1]? = some 254 ∧ out[1 * (3 * 2 + 2) + 3 * 1 + 1]? = some 254 ∧
      out[1 * (3 * 2 + 2) + 3 * 1 + 2]? = some 254) ∧
    (∃ s out, ColorToGrey.convertToGrey { content := sampleBmp, pos := 0, failed := false } [] =
        some (s, out) ∧
      out[54 + (1 * (3 * 2 + 2) + 3 * 1)]? = some 254 ∧
      out[54 + (1 * (3 * 2 + 2) + 3 * 1 + 1)]? = some 254 ∧
      out[54 + (1 * (3 * 2 + 2) + 3 * 1 + 2)]? = some 254) := by
  obtain ⟨b, g, r, e0, e1, e2, hgrey, hseq⟩ :=
    pixel_bytes_are_grey samplePixels 2 2 2 1 1 (by decide) (by decide) (by decide)
  have hb : b = 255 := by
    have : samplePixels[1 * (3 * 2 + 2) + 3 * 1]? = some 255 := by decide
    rw [this] at e0
    exact (Option.some.inj e0).symm
  have hg : g = 255 := by
    have : samplePixels[1 * (3 * 2 + 2) + 3 * 1 + 1]? = some 255 := by decide
    rw [this] at e1
    exact (Option.some.inj e1).symm
  have hr : r = 255 := by
    have : samplePixels[1 * (3 * 2 + 2) + 3 * 1 + 2]? = some 255 := by decide
    rw [this] at e2
    exact (Option.some.inj e2).symm
  subst hb hg hr
  have hv : grey 255 255 255 = 254 := by decide!
  rw [hv] at hgrey hseq
  exact ⟨hgrey (by decide), hseq sampleBmp 0 54 (by decide) (by decide) (by decide) (by decide)
    (by decide) (by decide) (by decide) (by decide) (by decide)⟩

/-- C4 (counterexample). A pixel buffer of 700000 rows of 1023 pixels and 3 filler bytes
(2150400000 bytes): `idx` would have to pass 2147483647, and `rgbToGrey` has no defined
result, so it cannot be said to keep the filler bytes. -/
theorem rgbToGrey_large_padded_buffer :
    (List.replicate 2150400000 (0 : Byte)).length = 700000 * (3 * 1023 + 3) ∧
    ColorToGrey_Multithead.rgbToGrey (List.replicate 2150400000 (0 : Byte)) 700000 1023 3 =
      none :=
  ⟨by rw [List.length_replicate],
    ColorToGrey_Multithead.rgbToGrey_none_of_large _ 700000 1023 3 (by omega)⟩

/-- C4 (amended). Let a pixel buffer hold height rows of width pixels with lineOffset filler
bytes per row, and let x be filler byte k of row i (offset 3*width + k of the row). If the
buffer has at most 2147483647 bytes, `rgbToGrey` leaves that byte equal to x. If the buffer is
the pixel region of a source file whose header fields are present (offset N <= 2147483647,
width*3 <= 2147483647, lineOffset the padding of that width), the sequential `convertToGrey`
writes x at that place, as read from the source. -/
theorem filler_bytes_are_kept (buf : List Byte) (h w fill i k : Nat)
    (hbuf : buf.length = h * (3 * w + fill)) (hi : i < h) (hk : k < fill) :
    ∃ x,
      buf[i * (3 * w + fill) + 3 * w + k]? = some x ∧
      (h * (3 * w + fill) ≤ 2147483647 →
        ∃ out, ColorToGrey_Multithead.rgbToGrey buf (h : Int) (w : Int) (fill : Int) = some out ∧
          out[i * (3 * w + fill) + 3 * w + k]? = some x) ∧
      (∀ (fc : List Byte) (p n : Nat), 26 ≤ fc.length → fieldAt fc 10 = n →
        fieldAt fc 18 = w → fieldAt fc 22 = h → n ≤ 2147483647 → w * 3 ≤ 2147483647 →
        h ≤ 2147483647 → fill = (4 - w * 3 % 4) % 4 →
        (fc.drop n).take (h * (3 * w + fill)) = buf →
        ∃ s out, ColorToGrey.convertToGrey { content := fc, pos := p, failed := false } [] =
            some (s, out) ∧
          fc[n + (i * (3 * w + fill) + 3 * w + k)]? = some x ∧
          out[n + (i * (3 * w + fill) + 3 * w + k)]? = some x) := by
  have hlt : i * (3 * w + fill) + (3 * w + k) < h * (3 * w + fill) :=
    row_index_lt h _ i _ hi (by omega)
  have hrow : (i + 1) * (3 * w + fill) ≤ buf.length := by
    rw [hbuf]; exact Nat.mul_le_mul_right _ hi
  have h0 : i * (3 * w + fill) + 3 * w + k < buf.length := by omega
  have e0 := List.getElem?_eq_getElem h0
  have p0 := greyRows_getElem_fill w fill i h buf k hi hk hrow
  rw [e0] at p0
  refine ⟨_, e0, ?_, ?_⟩
  · intro hmax
    exact ⟨_, ColorToGrey_Multithead.rgbToGrey_good w fill h buf hbuf hmax, p0⟩
  · intro fc p n h26 hn hw hh hnmax hwmax hhmax hfill hregion
    obtain ⟨s, out, hs, hx⟩ := sequential_on_region fc buf p n w h fill h26 hn hw hh hnmax
      hwmax hhmax hfill hbuf (by omega) hregion
    refine ⟨s, out, hs, ?_, by rw [hx]; exact p0⟩
    rw [← e0, ← hregion, List.getElem?_take_of_lt (by omega), List.getElem?_drop]

/-- C4 (amended), on the 2 x 2 sample image, row 1, filler byte 1 (value 4): `rgbToGrey` keeps
it and the sequential `convertToGrey` writes it. -/
theorem filler_bytes_are_kept_witness :
    (∃ out, ColorToGrey_Multithead.rgbToGrey samplePixels 2 2 2 = some out ∧
      out[1 * (3 * 2 + 2) + 3 * 2 + 1]? = some 4) ∧
    (∃ s out, ColorToGrey.convertToGrey { content := sampleBmp, pos := 0, failed := false } [] =
        some (s, out) ∧
      sampleBmp[54 + (1 * (3 * 2 + 2) + 3 * 2 + 1)]? = some 4 ∧
      out[54 + (1 * (3 * 2 + 2) + 3 * 2 + 1)]? = some 4) := by
  obtain ⟨x, e0, hkeep, hseq⟩ :=
    filler_bytes_are_kept samplePixels 2 2 2 1 1 (by decide) (by decide) (by decide)
  have hx : x = 4 := by
    have : samplePixels[1 * (3 * 2 + 2) + 3 * 2 + 1]? = some 4 := by decide
    rw [this] at e0
    exact (Option.some.inj e0).symm
  subst hx
  exact ⟨hkeep (by decide), hseq sampleBmp 0 54 (by decide) (by decide) (by decide) (by decide)
    (by decide) (by decide) (by decide) (by decide) (by decide)⟩


/-! ## The claims: idempotence, band split, header size, subscripts, re-run -/

theorem copyHeader_headerSize (source s1 : IfStream) (dst out : List Byte) (headerSize : Int)
    (h : copyHeader source dst = some (s1, out, headerSize)) :
    headerSize = (readHeaderSize source).1 := by
  unfold copyHeader at h
  simp only [] at h
  split_ifs at h
  simp only [Option.some.injEq, Prod.mk.injEq] at h
  rw [← h.2.2]
  rfl

theorem readHeaderSize_good (fc : List Byte) (p : Nat) (h14 : 14 ≤ fc.length) :
    readHeaderSize { content := fc, pos := p, failed := false } =
      (asInt32 (fieldAt fc 10), { content := fc, pos := 14, failed := false }) := by
  have hs : IfStream.seekg { content := fc, pos := p, failed := false } DATA_OFFSET =
      { content := fc, pos := 10, failed := false } := seekg_good fc p 10
  unfold readHeaderSize
  simp only [hs, read_good fc 10 4 (by omega)]
  rfl

/-- C13 (counterexample). A source of 14 bytes with `FF FF FF FF` at offset 0x0A: the unsigned
field is 4294967295, the `int headerSize` is -1, and `copyHeader` has no defined result. -/
theorem headerSize_is_signed :
    allOnesOffset.length = 14 ∧ fieldAt allOnesOffset 10 = 4294967295 ∧
    (readHeaderSize (IfStream.ofFile allOnesOffset)).1 = -1 ∧
    copyHeader (IfStream.ofFile allOnesOffset) [] = none := by
  decide

/-- C13 (amended). For every source of at least 14 bytes, `headerSize` is the 4-byte
little-endian field at offset 0x0A read as a signed `int`: it equals the unsigned value N of
the field whenever N <= 2147483647 (and is N - 4294967296 otherwise). When moreover N does not
exceed the length of the source, `copyHeader` returns that N, has appended N bytes and leaves
the source positioned at N. -/
theorem headerSize_is_field (fc : List Byte) (p : Nat) (dst : List Byte)
    (h14 : 14 ≤ fc.length) :
    (readHeaderSize { content := fc, pos := p, failed := false }).1 = asInt32 (fieldAt fc 10) ∧
    (fieldAt fc 10 ≤ 2147483647 →
      (readHeaderSize { content := fc, pos := p, failed := false }).1 = (fieldAt fc 10 : Int)) ∧
    (fieldAt fc 10 ≤ 2147483647 → fieldAt fc 10 ≤ fc.length →
      copyHeader { content := fc, pos := p, failed := false } dst =
        some ({ content := fc, pos := fieldAt fc 10, failed := false },
          dst ++ fc.take (fieldAt fc 10), (fieldAt fc 10 : Int))) ∧
    (∀ s1 out headerSize, copyHeader { content := fc, pos := p, failed := false } dst =
      some (s1, out, headerSize) →
      headerSize = (readHeaderSize { content := fc, pos := p, failed := false }).1) := by
  rw [readHeaderSize_good fc p h14]
  refine ⟨rfl, ?_, ?_, ?_⟩
  · intro hmax
    show asInt32 (fieldAt fc 10) = _
    unfold asInt32
    rw [if_pos (by omega)]
  · intro hmax hlen
    exact copyHeader_good fc p dst _ h14 rfl hmax hlen
  · intro s1 out headerSize h
    rw [copyHeader_headerSize _ _ _ _ _ h, readHeaderSize_good fc p h14]

/-- C13 (amended), on the 2 x 2 sample image: `headerSize` is 54. -/
theorem headerSize_is_field_witness :
    (readHeaderSize { content := sampleBmp, pos := 0, failed := false }).1 =
      (fieldAt sampleBmp 10 : Int) :=
  (headerSize_is_field sampleBmp 0 [] (by decide)).2.1 (by decide)

theorem grey_val_eq (r g b : Byte) : (grey r g b).val = greyValue r g b := by
  have hr := r.isLt
  have hg := g.isLt
  have hb := b.isLt
  obtain ⟨h1, _, _⟩ := greyValue_error r g b
  show greyValue r g b % 256 = greyValue r g b
  exact Nat.mod_eq_of_lt (by omega)

theorem grey_of_equal_channels (x : Byte) :
    (grey x x x).val ≤ x.val ∧ x.val ≤ (grey x x x).val + 1 := by
  obtain ⟨h1, h2, _⟩ := greyValue_error x x x
  rw [grey_val_eq]
  omega

/-- C11 (counterexample). The value grey(255,255,255) is 254, not 255, and a second conversion
changes an already-grey pixel: the pixel (41,41,41) becomes (40,40,40), and converting that
again gives (39,39,39). -/
theorem grey_is_not_idempotent :
    grey 255 255 255 = 254 ∧ grey 41 41 41 = 40 ∧
    ColorToGrey_Multithead.rgbToGrey [41, 41, 41] 1 1 0 = some [40, 40, 40] ∧
    ColorToGrey_Multithead.rgbToGrey [40, 40, 40] 1 1 0 = some [39, 39, 39] := by
  decide!

/-- C11 (amended). For every byte x, grey(x, x, x) is x or x - 1 (grey(0,0,0) = 0,
grey(255,255,255) = 254). Hence on a pixel buffer of at most 2147483647 bytes that
`rgbToGrey` has already converted, a second `rgbToGrey` stores, for the pixel whose three
bytes all hold y, three copies of grey(y, y, y), which is y or y - 1. -/
theorem grey_again_lowers_by_at_most_one (buf : List Byte) (h w fill i j : Nat)
    (hbuf : buf.length = h * (3 * w + fill)) (hmax : h * (3 * w + fill) ≤ 2147483647)
    (hi : i < h) (hj : j < w) :
    (∀ x : Byte, (grey x x x).val ≤ x.val ∧ x.val ≤ (grey x x x).val + 1) ∧
    grey 0 0 0 = 0 ∧ grey 255 255 255 = 254 ∧
    ∃ once twice y,
      ColorToGrey_Multithead.rgbToGrey buf (h : Int) (w : Int) (fill : Int) = some once ∧
      ColorToGrey_Multithead.rgbToGrey once (h : Int) (w : Int) (fill : Int) = some twice ∧
      once[i * (3 * w + fill) + 3 * j]? = some y ∧
      once[i * (3 * w + fill) + 3 * j + 1]? = some y ∧
      once[i * (3 * w + fill) + 3 * j + 2]? = some y ∧
      twice[i * (3 * w + fill) + 3 * j]? = some (grey y y y) ∧
      twice[i * (3 * w + fill) + 3 * j + 1]? = some (grey y y y) ∧
      twice[i * (3 * w + fill) + 3 * j + 2]? = some (grey y y y) ∧
      (grey y y y).val ≤ y.val ∧ y.val ≤ (grey y y y).val + 1 := by
  refine ⟨grey_of_equal_channels, by decide!, by decide!, ?_⟩
  have hlt : i * (3 * w + fill) + (3 * j + 2) < h * (3 * w + fill) :=
    row_index_lt h _ i _ hi (by omega)
  have h0 : i * (3 * w + fill) + 3 * j < buf.length := by omega
  have h1 : i * (3 * w + fill) + 3 * j + 1 < buf.length := by omega
  have h2 : i * (3 * w + fill) + 3 * j + 2 < buf.length := by omega
  have e0 := List.getElem?_eq_getElem h0
  have e1 := List.getElem?_eq_getElem h1
  have e2 := List.getElem?_eq_getElem h2
  have p0 := greyRows_getElem_pixel w fill i h buf j 0 _ _ _ hi hj (by omega) e0 e1 e2
  have p1 := greyRows_getElem_pixel w fill i h buf j 1 _ _ _ hi hj (by omega) e0 e1 e2
  have p2 := greyRows_getElem_pixel w fill i h buf j 2 _ _ _ hi hj (by omega) e0 e1 e2
  have hlen : (greyRows w fill h buf).length = h * (3 * w + fill) :=
    greyRows_length w fill h buf (by omega)
  have q0 := greyRows_getElem_pixel w fill i h _ j 0 _ _ _ hi hj (by omega) p0 p1 p2
  have q1 := greyRows_getElem_pixel w fill i h _ j 1 _ _ _ hi hj (by omega) p0 p1 p2
  have q2 := greyRows_getElem_pixel w fill i h _ j 2 _ _ _ hi hj (by omega) p0 p1 p2
  exact ⟨_, _, _, ColorToGrey_Multithead.rgbToGrey_good w fill h buf hbuf hmax,
    ColorToGrey_Multithead.rgbToGrey_good w fill h _ hlen hmax, p0, p1, p2, q0, q1, q2,
    grey_of_equal_channels _⟩

/-- C11 (amended), on the sample pixel region, row 1, pixel 1. -/
theorem grey_again_lowers_by_at_most_one_witness :
    ∃ once twice y,
      ColorToGrey_Multithead.rgbToGrey samplePixels 2 2 2 = some once ∧
      ColorToGrey_Multithead.rgbToGrey once 2 2 2 = some twice ∧
      once[1 * (3 * 2 + 2) + 3 * 1]? = some y ∧
      twice[1 * (3 * 2 + 2) + 3 * 1]? = some (grey y y y) ∧
      (grey y y y).val ≤ y.val ∧ y.val ≤ (grey y y y).val + 1 := by
  obtain ⟨_, _, _, once, twice, y, h1, h2, h3, _, _, h6, _, _, h9⟩ :=
    grey_again_lowers_by_at_most_one samplePixels 2 2 2 1 1 (by decide) (by decide) (by decide)
      (by decide)
  exact ⟨once, twice, y, h1, h2, h3, h6, h9⟩

theorem checkedInt_eq_some (x y : Int) (h : checkedInt x = some y) : y = x := by
  unfold checkedInt at h
  split_ifs at h
  exact (Option.some.inj h).symm

theorem checkedInt_of_lineOffset (width fill : Int) (h : lineOffset width = some fill) :
    checkedInt (width * 3) = some (width * 3) := by
  unfold lineOffset at h
  cases hc : checkedInt (width * 3) with
  | none => rw [hc] at h; exact absurd h (by simp)
  | some w3 => rw [checkedInt_eq_some _ _ hc]

namespace ColorToGrey_Multithead

theorem convertToGrey_bands (colorImage : IfStream) (greyImage : List Byte) :
    convertToGrey colorImage greyImage =
      match copyHeader colorImage greyImage with
      | none => none
      | some (s1, out1, dataOffset) =>
        match lineOffset (getDimension s1).1 with
        | none => none
        | some fill =>
          match halfSize (firstHalfHeight (getDimension s1).2.1) (getDimension s1).1 fill,
              halfSize (secondHalfHeight (getDimension s1).2.1) (getDimension s1).1 fill with
          | some firstHalfSize, some secondHalfSize =>
            match readArray ((getDimension s1).2.2.seekg dataOffset) firstHalfSize with
            | none => none
            | some (firstHalf, s3) =>
              match readArray s3 secondHalfSize with
              | none => none
              | some (secondHalf, s4) =>
                match rgbToGrey firstHalf (firstHalfHeight (getDimension s1).2.1)
                    (getDimension s1).1 fill,
                    rgbToGrey secondHalf (secondHalfHeight (getDimension s1).2.1)
                    (getDimension s1).1 fill with
                | some firstGrey, some secondGrey => some (s4, out1 ++ firstGrey ++ secondGrey)
                | _, _ => none
          | _, _ => none := by
  unfold convertToGrey
  cases copyHeader colorImage greyImage with
  | none => rfl
  | some res =>
    obtain ⟨s1, out1, dataOffset⟩ := res
    simp only []
    cases hl : lineOffset (getDimension s1).1 with
    | none => rfl
    | some fill =>
      have hw := checkedInt_of_lineOffset _ _ hl
      unfold halfSize firstHalfHeight secondHalfHeight
      simp only [hw]
      cases checkedInt ((getDimension s1).1 * 3 + fill) with
      | none => rfl
      | some lineBytes =>
        simp only []
        cases checkedInt ((Int.tdiv (getDimension s1).2.1 2 + Int.tmod (getDimension s1).2.1 2) *
          lineBytes) with
        | none => rfl
        | some a =>
          simp only []
          cases checkedInt (Int.tdiv (getDimension s1).2.1 2 * lineBytes) with
          | none => rfl
          | some b => rfl

end ColorToGrey_Multithead

/-- C12 (counterexample). For height 4 and width 357913941 (lineOffset 1, rows of 1073741824
bytes) the first band has 2 rows and its size 2 * 1073741824 overflows `int`: the band has no
size. For height 2147483647 and the stored width -1 (lineOffset 0, `width*3 + lineOffset` is
-3) the first band size 1073741824 * -3 lies below the smallest `int`. For height 1 and the
stored width -715827883 the row length -2147483649 + 1 would fit an `int`, but the product
`width*3` does not. -/
theorem band_size_overflow :
    lineOffset 357913941 = some 1 ∧ firstHalfHeight 4 = 2 ∧
    halfSize (firstHalfHeight 4) 357913941 1 = none ∧
    lineOffset (-1) = some 0 ∧ firstHalfHeight 2147483647 = 1073741824 ∧
    halfSize (firstHalfHeight 2147483647) (-1) 0 = none ∧
    firstHalfHeight 1 = 1 ∧ halfSize (firstHalfHeight 1) (-715827883) 1 = none := by
  decide

/-- C12 (amended). For every height >= 0, firstHalfHeight = ceil(height/2) and
secondHalfHeight = floor(height/2), so the two row counts sum to height; for height = 7 they
are 4 and 3. When `width*3`, the row length 3*width + lineOffset and the first band size
ceil(height/2)*(3*width + lineOffset) all fit an `int` (lie between -2147483648 and
2147483647), both band sizes are defined and sum to height*(3*width + lineOffset). -/
theorem band_heights_and_sizes (height : Int) (h0 : 0 ≤ height) :
    firstHalfHeight height = (height + 1) / 2 ∧ secondHalfHeight height = height / 2 ∧
    firstHalfHeight height + secondHalfHeight height = height ∧
    firstHalfHeight 7 = 4 ∧ secondHalfHeight 7 = 3 ∧
    ∀ width fill : Int, -2147483648 ≤ width * 3 → width * 3 ≤ 2147483647 →
      -2147483648 ≤ width * 3 + fill → width * 3 + fill ≤ 2147483647 →
      -2147483648 ≤ firstHalfHeight height * (width * 3 + fill) →
      firstHalfHeight height * (width * 3 + fill) ≤ 2147483647 →
      ∃ firstHalfSize secondHalfSize,
        halfSize (firstHalfHeight height) width fill = some firstHalfSize ∧
        halfSize (secondHalfHeight height) width fill = some secondHalfSize ∧
        firstHalfSize + secondHalfSize = height * (3 * width + fill) := by
  have hd : Int.tdiv height 2 = height / 2 := Int.tdiv_eq_ediv h0 (by omega)
  have hm : Int.tmod height 2 = height % 2 := Int.tmod_eq_emod h0 (by omega)
  have e1 : firstHalfHeight height = (height + 1) / 2 := by
    unfold firstHalfHeight; rw [hd, hm]; omega
  have e2 : secondHalfHeight height = height / 2 := by
    unfold secondHalfHeight; rw [hd]
  refine ⟨e1, e2, by rw [e1, e2]; omega, by decide, by decide, ?_⟩
  intro width fill hwLo hwHi hlineLo hline hbandLo hband
  have hf0 : 0 ≤ firstHalfHeight height := by rw [e1]; omega
  have hs0 : 0 ≤ secondHalfHeight height := by rw [e2]; omega
  have hle : secondHalfHeight height ≤ firstHalfHeight height := by rw [e1, e2]; omega
  have hsum : firstHalfHeight height + secondHalfHeight height = height := by
    rw [e1, e2]; omega
  have cw : checkedInt (width * 3) = some (width * 3) := by
    unfold checkedInt INT_MIN INT_MAX
    rw [if_pos]
    omega
  have c0 : checkedInt (width * 3 + fill) = some (width * 3 + fill) := by
    unfold checkedInt INT_MIN INT_MAX
    rw [if_pos]
    omega
  have hrange : -2147483648 ≤ secondHalfHeight height * (width * 3 + fill) ∧
      secondHalfHeight height * (width * 3 + fill) ≤ 2147483647 := by
    by_cases hpos : 0 ≤ width * 3 + fill
    · have hb2 : 0 ≤ secondHalfHeight height * (width * 3 + fill) := Int.mul_nonneg hs0 hpos
      have hb3 : secondHalfHeight height * (width * 3 + fill) ≤
          firstHalfHeight height * (width * 3 + fill) :=
        Int.mul_le_mul_of_nonneg_right hle hpos
      omega
    · have hneg : 0 ≤ -(width * 3 + fill) := by omega
      have hb2 : 0 ≤ secondHalfHeight height * (-(width * 3 + fill)) :=
        Int.mul_nonneg hs0 hneg
      have hb3 : secondHalfHeight height * (-(width * 3 + fill)) ≤
          firstHalfHeight height * (-(width * 3 + fill)) :=
        Int.mul_le_mul_of_nonneg_right hle hneg
      rw [Int.mul_neg] at hb2 hb3
      rw [Int.mul_neg] at hb3
      omega
  have c1 : checkedInt (firstHalfHeight height * (width * 3 + fill)) =
      some (firstHalfHeight height * (width * 3 + fill)) := by
    unfold checkedInt INT_MIN INT_MAX
    rw [if_pos]
    omega
  have c2 : checkedInt (secondHalfHeight height * (width * 3 + fill)) =
      some (secondHalfHeight height * (width * 3 + fill)) := by
    unfold checkedInt INT_MIN INT_MAX
    rw [if_pos]
    omega
  have s1 : halfSize (firstHalfHeight height) width fill =
      some (firstHalfHeight height * (width * 3 + fill)) := by
    unfold halfSize; simp only [cw, c0, c1]
  have s2 : halfSize (secondHalfHeight height) width fill =
      some (secondHalfHeight height * (width * 3 + fill)) := by
    unfold halfSize; simp only [cw, c0, c2]
  refine ⟨_, _, s1, s2, ?_⟩
  rw [← Int.add_mul, hsum]
  ring

/-- C12 (amended), at height 7, width 2, lineOffset 2: bands of 32 and 24 bytes. -/
theorem band_heights_and_sizes_witness :
    ∃ firstHalfSize secondHalfSize,
      halfSize (firstHalfHeight 7) 2 2 = some firstHalfSize ∧
      halfSize (secondHalfHeight 7) 2 2 = some secondHalfSize ∧
      firstHalfSize + secondHalfSize = 7 * (3 * 2 + 2) :=
  (band_heights_and_sizes 7 (by decide)).2.2.2.2.2 2 2 (by decide) (by decide) (by decide)
    (by decide) (by decide) (by decide)

/-- C15 (counterexample). Two bands of 350000 rows of 1024 pixels (1075200000 bytes each):
`rgbToGrey` converts each band, but on their concatenation (2150400000 bytes, 700000 rows)
`idx` would pass 2147483647 and `rgbToGrey` has no defined result. -/
theorem rgbToGrey_concatenation_too_large :
    (List.replicate 1075200000 (0 : Byte)).length = 350000 * (3 * 1024 + 0) ∧
    (∃ a, ColorToGrey_Multithead.rgbToGrey (List.replicate 1075200000 (0 : Byte))
      350000 1024 0 = some a) ∧
    ColorToGrey_Multithead.rgbToGrey
      (List.replicate 1075200000 (0 : Byte) ++ List.replicate 1075200000 (0 : Byte))
      (350000 + 350000) 1024 0 = none :=
  ⟨by rw [List.length_replicate],
    ⟨_, ColorToGrey_Multithead.rgbToGrey_good 1024 0 350000 _
      (by rw [List.length_replicate]) (by omega)⟩,
    ColorToGrey_Multithead.rgbToGrey_none_of_large _ (350000 + 350000) 1024 0 (by omega)⟩

/-- C15 (amended). For every width >= 0, lineOffset >= 0, heights h1, h2 >= 0 and buffers A of
h1 rows and B of h2 rows whose concatenation has at most 2147483647 bytes, `rgbToGrey` on A
followed by `rgbToGrey` on B equals `rgbToGrey` on A ++ B with h1 + h2 rows: writing the two
transformed bands first-then-second gives the transformed full image in row order. -/
theorem rgbToGrey_of_concatenation (bandA bandB : List Byte) (h1 h2 w fill : Nat)
    (hA : bandA.length = h1 * (3 * w + fill)) (hB : bandB.length = h2 * (3 * w + fill))
    (hmax : (h1 + h2) * (3 * w + fill) ≤ 2147483647) :
    ∃ greyA greyB,
      ColorToGrey_Multithead.rgbToGrey bandA (h1 : Int) (w : Int) (fill : Int) = some greyA ∧
      ColorToGrey_Multithead.rgbToGrey bandB (h2 : Int) (w : Int) (fill : Int) = some greyB ∧
      ColorToGrey_Multithead.rgbToGrey (bandA ++ bandB) ((h1 : Int) + (h2 : Int)) (w : Int)
        (fill : Int) = some (greyA ++ greyB) := by
  rw [Nat.add_mul] at hmax
  have hAB : (bandA ++ bandB).length = (h1 + h2) * (3 * w + fill) := by
    rw [List.length_append, hA, hB, Nat.add_mul]
  have g := ColorToGrey_Multithead.rgbToGrey_good w fill (h1 + h2) (bandA ++ bandB) hAB
    (by rw [Nat.add_mul]; exact hmax)
  rw [Nat.cast_add] at g
  refine ⟨_, _, ColorToGrey_Multithead.rgbToGrey_good w fill h1 bandA hA (by omega),
    ColorToGrey_Multithead.rgbToGrey_good w fill h2 bandB hB (by omega), ?_⟩
  rw [g, greyRows_add, ← hA, List.drop_left, ← greyRows_take w fill h1 _ (bandA ++ bandB)
    (le_of_eq hA.symm), List.take_left]

/-- C15 (amended), on the two rows of the sample pixel region. -/
theorem rgbToGrey_of_concatenation_witness :
    ∃ greyA greyB,
      ColorToGrey_Multithead.rgbToGrey (samplePixels.take 8) 1 2 2 = some greyA ∧
      ColorToGrey_Multithead.rgbToGrey (samplePixels.drop 8) 1 2 2 = some greyB ∧
      ColorToGrey_Multithead.rgbToGrey (samplePixels.take 8 ++ samplePixels.drop 8) (1 + 1) 2 2 =
        some (greyA ++ greyB) :=
  rgbToGrey_of_concatenation (samplePixels.take 8) (samplePixels.drop 8) 1 1 2 2 (by decide)
    (by decide) (by decide)

namespace ColorToGrey_Multithead

theorem rgbToGreyPixel_isSome_iff (a : List Byte) (idx : Int) :
    (∃ res, rgbToGreyPixel a idx = some res) ↔
      ∃ used idx1, rgbToGreyPixelIndices idx = some (used, idx1) ∧
        ∀ x ∈ used, 0 ≤ x ∧ x < (a.length : Int) := by
  unfold rgbToGreyPixel rgbToGreyPixelIndices INT_MAX
  constructor
  · rintro ⟨res, h⟩
    split_ifs at h with hc
    rw [if_neg (by omega)]
    refine ⟨_, _, rfl, ?_⟩
    have h2 : idx.toNat + 2 < a.length := by
      by_contra hlt
      rw [List.getElem?_eq_none (by omega)] at h
      simp at h
    intro x hx
    simp only [List.mem_cons, List.mem_singleton, List.not_mem_nil, or_false] at hx
    omega
  · rintro ⟨used, idx1, h, hall⟩
    split_ifs at h with hc
    simp only [Option.some.injEq, Prod.mk.injEq] at h
    obtain ⟨hu, _⟩ := h
    subst hu
    have b0 := hall idx (by simp)
    have b2 := hall (idx + 2) (by simp)
    rw [if_neg (by omega)]
    have h0 : idx.toNat < a.length := by omega
    have h1 : idx.toNat + 1 < a.length := by omega
    have h2 : idx.toNat + 2 < a.length := by omega
    rw [List.getElem?_eq_getElem h0, List.getElem?_eq_getElem h1, List.getElem?_eq_getElem h2]
    exact ⟨_, rfl⟩

theorem rgbToGreyLineIndices_bounds (n : Nat) :
    ∀ idx : Int, (∀ x ∈ (rgbToGreyLineIndices n idx).1, idx ≤ x ∧ x < idx + 3 * (n : Int)) ∧
      (∀ idx1, (rgbToGreyLineIndices n idx).2 = some idx1 → idx1 = idx + 3 * (n : Int)) := by
  induction n with
  | zero =>
    intro idx
    simp [rgbToGreyLineIndices]
  | succ n ih =>
    intro idx
    rw [rgbToGreyLineIndices]
    unfold rgbToGreyPixelIndices
    split_ifs with hc
    · simp
    · simp only []
      obtain ⟨ih1, ih2⟩ := ih (idx + 3)
      constructor
      · intro x hx
        rw [List.mem_append] at hx
        rcases hx with hx | hx
        · simp only [List.mem_cons, List.mem_singleton, List.not_mem_nil, or_false] at hx
          push_cast
          omega
        · have := ih1 x hx
          push_cast
          omega
      · intro idx1 h1
        have := ih2 idx1 h1
        push_cast
        omega

theorem rgbToGreyLinesIndices_bounds (w fill : Nat) (n : Nat) :
    ∀ idx : Int, ∀ x ∈ rgbToGreyLinesIndices (w : Int) (fill : Int) n idx,
      idx ≤ x ∧ x < idx + ((n * (3 * w + fill) : Nat) : Int) := by
  induction n with
  | zero =>
    intro idx x hx
    simp [rgbToGreyLinesIndices] at hx
  | succ n ih =>
    intro idx x hx
    have e : (((n + 1) * (3 * w + fill) : Nat) : Int) =
        ((n * (3 * w + fill) : Nat) : Int) + (3 * (w : Int) + (fill : Int)) := by
      push_cast; ring
    rw [e]
    have hpos : (0 : Int) ≤ ((n * (3 * w + fill) : Nat) : Int) := Int.ofNat_nonneg _
    obtain ⟨l1, l2⟩ := rgbToGreyLineIndices_bounds w idx
    rw [rgbToGreyLinesIndices, Int.toNat_ofNat] at hx
    split at hx
    · rename_i used hline
      have hu : used = (rgbToGreyLineIndices w idx).1 := by rw [hline]
      rw [hu] at hx
      have := l1 x hx
      omega
    · rename_i used idx1 hline
      have hu : used = (rgbToGreyLineIndices w idx).1 := by rw [hline]
      have hi : (rgbToGreyLineIndices w idx).2 = some idx1 := by rw [hline]
      have hidx1 := l2 idx1 hi
      split at hx
      · rw [hu] at hx
        have := l1 x hx
        omega
      · rename_i idx2 hc
        have h2 : idx2 = idx1 + (fill : Int) := by
          unfold checkedInt at hc
          split_ifs at hc
          simp only [Option.some.injEq] at hc
          omega
        rw [List.mem_append] at hx
        rcases hx with hx | hx
        · rw [hu] at hx
          have := l1 x hx
          omega
        · have := ih idx2 x hx
          omega

end ColorToGrey_Multithead

/-- C16. For every width >= 0, height >= 0 and lineOffset >= 0, every subscript that
`rgbToGrey` evaluates is at least 0 and strictly less than height*(3*width + lineOffset); and on
a buffer of exactly that length whose size is an `int` (as the two bands allocated by
`convertToGrey` are) the run is defined: no access is out of bounds. -/
theorem rgbToGrey_indices_in_bounds (h w fill : Nat) :
    (∀ x ∈ ColorToGrey_Multithead.rgbToGreyIndices (h : Int) (w : Int) (fill : Int),
      0 ≤ x ∧ x < ((h * (3 * w + fill) : Nat) : Int)) ∧
    (∀ buf : List Byte, buf.length = h * (3 * w + fill) → h * (3 * w + fill) ≤ 2147483647 →
      ∃ out, ColorToGrey_Multithead.rgbToGrey buf (h : Int) (w : Int) (fill : Int) = some out) := by
  constructor
  · intro x hx
    unfold ColorToGrey_Multithead.rgbToGreyIndices at hx
    rw [Int.toNat_ofNat] at hx
    have := ColorToGrey_Multithead.rgbToGreyLinesIndices_bounds w fill h 0 x hx
    omega
  · intro buf hbuf hmax
    exact ⟨_, ColorToGrey_Multithead.rgbToGrey_good w fill h buf hbuf hmax⟩

/-- C16, on the sample pixel region: the run is defined, and the subscripts evaluated are the
twelve pixel bytes, each read once and written once. -/
theorem rgbToGrey_indices_in_bounds_witness :
    (∃ out, ColorToGrey_Multithead.rgbToGrey samplePixels 2 2 2 = some out) ∧
    ColorToGrey_Multithead.rgbToGreyIndices 2 2 2 =
      [2, 1, 0, 0, 1, 2, 5, 4, 3, 3, 4, 5, 10, 9, 8, 8, 9, 10, 13, 12, 11, 11, 12, 13] :=
  ⟨(rgbToGrey_indices_in_bounds 2 2 2).2 samplePixels (by decide) (by decide), by decide⟩

theorem tmod_four_nonpos (a : Int) (ha : a ≤ 0) : Int.tmod a 4 ≤ 0 := by
  cases a with
  | ofNat n =>
    have hn : n = 0 := by
      have : (n : Int) ≤ 0 := ha
      omega
    subst hn
    decide
  | negSucc m =>
    show -(((m + 1) % 4 : Nat) : Int) ≤ 0
    omega

theorem lineOffset_of_range (w : Int) (hlo : -2147483648 ≤ w * 3) (hhi : w * 3 ≤ 2147483647) :
    lineOffset w = some (((4 - w.toNat * 3 % 4) % 4 : Nat) : Int) := by
  by_cases hw : 0 ≤ w
  · obtain ⟨n, rfl⟩ := Int.eq_ofNat_of_zero_le hw
    rw [Int.toNat_ofNat]
    exact lineOffset_natCast n (by omega)
  · have hc : checkedInt (w * 3) = some (w * 3) := by
      unfold checkedInt INT_MIN INT_MAX
      rw [if_pos]
      omega
    have ht := tmod_four_nonpos (w * 3) (by omega)
    have hz : w.toNat = 0 := Int.toNat_of_nonpos (by omega)
    unfold lineOffset
    simp only [hc, hz]
    rw [if_neg (by omega)]
    rfl

theorem getDimension_signed (fc : List Byte) (p : Nat) (h26 : 26 ≤ fc.length) :
    getDimension { content := fc, pos := p, failed := false } =
      (intFieldAt fc 18, intFieldAt fc 22, { content := fc, pos := 26, failed := false }) := by
  have hs : IfStream.seekg { content := fc, pos := p, failed := false } DIMENSIONES =
      { content := fc, pos := 18, failed := false } := seekg_good fc p 18
  unfold getDimension intFieldAt
  simp only [hs, read_good fc 18 4 (by omega), read_good fc (18 + 4) 4 (by omega)]

theorem greyRows_no_pixels (h : Nat) : ∀ l : List Byte, greyRows 0 0 h l = [] := by
  induction h with
  | zero => intro l; rfl
  | succ h ih =>
    intro l
    rw [greyRows, ih]
    simp [greyPixels]

namespace ColorToGrey

theorem rowLoop_toNat (width fill : Int) (n : Nat) :
    ∀ (s : IfStream) (out : List Byte),
      rowLoop width fill n s out = rowLoop (width.toNat : Int) fill n s out := by
  induction n with
  | zero => intro s out; rfl
  | succ n ih =>
    intro s out
    rw [rowLoop, rowLoop, Int.toNat_ofNat]
    simp only [ih]

theorem sequential_convertToGrey_signed (fc : List Byte) (p : Nat) (dst : List Byte) (n : Nat)
    (h26 : 26 ≤ fc.length) (hn : fieldAt fc 10 = n) (hnmax : n ≤ 2147483647)
    (hlo : -2147483648 ≤ intFieldAt fc 18 * 3) (hhi : intFieldAt fc 18 * 3 ≤ 2147483647)
    (hlen : n + (intFieldAt fc 22).toNat * (3 * (intFieldAt fc 18).toNat +
      (4 - (intFieldAt fc 18).toNat * 3 % 4) % 4) ≤ fc.length) :
    ∃ s, convertToGrey { content := fc, pos := p, failed := false } dst =
      some (s, dst ++ fc.take n ++ greyRows (intFieldAt fc 18).toNat
        ((4 - (intFieldAt fc 18).toNat * 3 % 4) % 4) (intFieldAt fc 22).toNat (fc.drop n)) := by
  have hnl : n ≤ fc.length := le_trans (Nat.le_add_right _ _) hlen
  unfold convertToGrey
  simp only [copyHeader_good fc p dst n (by omega) hn hnmax hnl, getDimension_signed fc n h26,
    lineOffset_of_range _ hlo hhi, seekg_good]
  rw [rowLoop_toNat]
  exact ⟨_, rowLoop_good _ _ _ fc n _ hlen⟩

end ColorToGrey

/-- C18 (counterexample). Four accepted inputs whose stored height is 0. The first declares
the header size 2147483648 (bytes `00 00 00 80`): `headerSize` is negative and no header byte
is written in a defined way. The second has 30 bytes and declares 54 header bytes: the `read`
into `c` falls short and `write` emits 54 bytes, 24 of them never stored. The third has width
715827883, for which `width*3` overflows `int`. The fourth has 29 bytes: the short `read` in
`is24Bpp` stores the byte 24 and fails the stream, so the file is accepted, `copyHeader` reads
nothing and writes 0 bytes although 20 header bytes are declared and present. -/
theorem header_only_needs_present_header :
    intFieldAt farHeader 22 = 0 ∧ ColorToGrey.main farHeader = Outcome.created none ∧
    intFieldAt truncatedBmp 22 = 0 ∧ fieldAt truncatedBmp 10 = 54 ∧
    ColorToGrey.main truncatedBmp = Outcome.created none ∧
    intFieldAt overflowWidthBmp 22 = 0 ∧
    ColorToGrey.main overflowWidthBmp = Outcome.created none ∧
    shortAcceptedBmp.length = 29 ∧ intFieldAt shortAcceptedBmp 22 = 0 ∧
    fieldAt shortAcceptedBmp 10 = 20 ∧
    ColorToGrey.main shortAcceptedBmp = Outcome.created (some []) := by
  decide

/-- C18 (amended). In the sequential strategy, for every accepted input of at least 30 bytes
(so that the format test reads both of its fields in full) whose declared header size N is at
most 2147483647 and does not exceed the length of the file, whose `width*3` fits an `int`, and
whose stored height is zero or negative (or whose stored width is zero or negative),
`convertToGrey` writes exactly the N header bytes and no pixel or filler bytes. -/
theorem nonpositive_dimension_writes_header_only (file : List Byte) (p : Nat) (dst : List Byte)
    (n : Nat) (h30 : 30 ≤ file.length) (hmagic : file.take 2 = [66, 77])
    (hbpp : leValue ((file.drop 28).take 2) = 24) (hn : fieldAt file 10 = n)
    (hnmax : n ≤ 2147483647) (hnlen : n ≤ file.length)
    (hlo : -2147483648 ≤ intFieldAt file 18 * 3) (hhi : intFieldAt file 18 * 3 ≤ 2147483647)
    (hdim : intFieldAt file 22 ≤ 0 ∨ intFieldAt file 18 ≤ 0) :
    (∃ s, ColorToGrey.convertToGrey { content := file, pos := p, failed := false } dst =
      some (s, dst ++ file.take n)) ∧
    (file.take n).length = n ∧
    ColorToGrey.main file = Outcome.created (some (file.take n)) := by
  have hrows : (intFieldAt file 22).toNat * (3 * (intFieldAt file 18).toNat +
      (4 - (intFieldAt file 18).toNat * 3 % 4) % 4) = 0 ∧
      greyRows (intFieldAt file 18).toNat ((4 - (intFieldAt file 18).toNat * 3 % 4) % 4)
        (intFieldAt file 22).toNat (file.drop n) = [] := by
    rcases hdim with hh | hw
    · rw [Int.toNat_of_nonpos hh]
      exact ⟨Nat.zero_mul _, rfl⟩
    · rw [Int.toNat_of_nonpos hw]
      exact ⟨Nat.mul_zero _, greyRows_no_pixels _ _⟩
  have hconv : ∀ (q : Nat) (d : List Byte),
      ∃ s, ColorToGrey.convertToGrey { content := file, pos := q, failed := false } d =
        some (s, d ++ file.take n) := by
    intro q d
    obtain ⟨s, hs⟩ := ColorToGrey.sequential_convertToGrey_signed file q d n (by omega) hn hnmax
      hlo hhi (by rw [hrows.1]; omega)
    rw [hrows.2, List.append_nil] at hs
    exact ⟨s, hs⟩
  refine ⟨hconv p dst, by rw [List.length_take]; omega, ?_⟩
  obtain ⟨s, hs⟩ := hconv 30 []
  rw [sequential_main_eq file h30, if_pos ⟨hmagic, hbpp⟩, hs]
  rfl

/-- C18 (amended), on a 54-byte image of width 2 and height 0 cut from the sample image. -/
theorem nonpositive_dimension_writes_header_only_witness :
    ColorToGrey.main ((sampleBmp.take 22) ++ [0, 0, 0, 0] ++ (sampleBmp.drop 26).take 28) =
      Outcome.created (some (((sampleBmp.take 22) ++ [0, 0, 0, 0] ++
        (sampleBmp.drop 26).take 28).take 54)) :=
  (nonpositive_dimension_writes_header_only
    ((sampleBmp.take 22) ++ [0, 0, 0, 0] ++ (sampleBmp.drop 26).take 28) 0 [] 54 (by decide)
    (by decide) (by decide) (by decide) (by decide) (by decide) (by decide) (by decide)
    (Or.inl (by decide))).2.2

theorem window_eq (a b : List Byte) (m off k : Nat) (h : a.take m = b.take m)
    (hk : off + k ≤ m) : (a.drop off).take k = (b.drop off).take k := by
  have e : ∀ l : List Byte, (l.drop off).take k = ((l.take m).drop off).take k := by
    intro l
    rw [List.drop_take, List.take_take, Nat.min_eq_left (by omega)]
  rw [e a, e b, h]

theorem isBmpFile_accepts (fc : List Byte) (h2 : 2 ≤ fc.length) (hm : fc.take 2 = [66, 77]) :
    isBmpFile (IfStream.ofFile fc) =
      (some true, { content := fc, pos := 2, failed := false }) := by
  unfold IfStream.ofFile
  rw [isBmpFile_good fc 0 h2, hm]
  rfl

theorem farBmp_accepted :
    30 ≤ (zeroFilled farHeader 2147483648).length ∧
    (zeroFilled farHeader 2147483648).take 2 = [66, 77] ∧
    leValue (((zeroFilled farHeader 2147483648).drop 28).take 2) = 24 ∧
    fieldAt (zeroFilled farHeader 2147483648) 10 = 2147483648 ∧
    intFieldAt (zeroFilled farHeader 2147483648) 18 = 0 ∧
    intFieldAt (zeroFilled farHeader 2147483648) 22 = 0 := by
  have hl := zeroFilled_length farHeader 2147483648
  have h54 : farHeader.length = 54 := farHeader_fields.1
  rw [h54] at hl
  have hw : ∀ off k, off + k ≤ 54 →
      ((zeroFilled farHeader 2147483648).drop off).take k = (farHeader.drop off).take k := by
    intro off k hk
    apply window_eq _ _ 54 off k _ hk
    rw [zeroFilled, List.take_append_of_le_length (by omega)]
  refine ⟨by omega, ?_, ?_, ?_, ?_, ?_⟩
  · have := hw 0 2 (by omega)
    rw [List.drop_zero, List.drop_zero] at this
    rw [this]
    decide
  · rw [hw 28 2 (by omega)]; decide
  · unfold fieldAt; rw [hw 10 4 (by omega)]; decide
  · unfold intFieldAt; rw [hw 18 4 (by omega)]; decide
  · unfold intFieldAt; rw [hw 22 4 (by omega)]; decide

/-- C17 (counterexample). An accepted file of 54 + 2147483648 bytes that declares the header
size 2147483648 (at least 30, and all declared bytes are present; width and height are 0):
`headerSize` is negative and the conversion has no defined output to run again on. A second
accepted file, 54 bytes with width 715827883 and height 0, overflows `int` in `width*3`. -/
theorem conversion_without_output :
    30 ≤ (zeroFilled farHeader 2147483648).length ∧
    fieldAt (zeroFilled farHeader 2147483648) 10 = 2147483648 ∧
    2147483648 ≤ (zeroFilled farHeader 2147483648).length ∧
    ColorToGrey.main (zeroFilled farHeader 2147483648) = Outcome.created none ∧
    fieldAt overflowWidthBmp 10 = 54 ∧ intFieldAt overflowWidthBmp 18 = 715827883 ∧
    intFieldAt overflowWidthBmp 22 = 0 ∧
    ColorToGrey.main overflowWidthBmp = Outcome.created none := by
  obtain ⟨h30, hm, hb, hn, _, _⟩ := farBmp_accepted
  have hl := zeroFilled_length farHeader 2147483648
  rw [farHeader_fields.1] at hl
  refine ⟨h30, hn, by omega, ?_, by decide, by decide, by decide, by decide⟩
  rw [sequential_main_eq _ h30, if_pos ⟨hm, hb⟩]
  unfold ColorToGrey.convertToGrey
  rw [copyHeader_none_of_large _ 30 [] _ (by omega) hn (le_refl _)]
  rfl

/-- C17 (amended). For every accepted input (magic 'BM', bpp 24) whose declared header size N
is at least 30 and at most 2147483647, whose `width*3` fits an `int`, and whose pixel region is
complete, the output of the sequential conversion is itself accepted by `isBmpFile` and
`is24Bpp` and yields the same width, height and header size as the input, and the converter
run on that output produces an output again. -/
theorem output_is_accepted_again (file : List Byte) (n : Nat)
    (h30 : 30 ≤ file.length) (hmagic : file.take 2 = [66, 77])
    (hbpp : leValue ((file.drop 28).take 2) = 24) (hn : fieldAt file 10 = n)
    (hn30 : 30 ≤ n) (hnmax : n ≤ 2147483647)
    (hlo : -2147483648 ≤ intFieldAt file 18 * 3) (hhi : intFieldAt file 18 * 3 ≤ 2147483647)
    (hlen : n + (intFieldAt file 22).toNat * (3 * (intFieldAt file 18).toNat +
      (4 - (intFieldAt file 18).toNat * 3 % 4) % 4) ≤ file.length) :
    ∃ out again,
      ColorToGrey.main file = Outcome.created (some out) ∧
      (isBmpFile (IfStream.ofFile out)).1 = some true ∧
      (is24Bpp (isBmpFile (IfStream.ofFile out)).2).1 = true ∧
      (getDimension (IfStream.ofFile out)).1 = (getDimension (IfStream.ofFile file)).1 ∧
      (getDimension (IfStream.ofFile out)).2.1 = (getDimension (IfStream.ofFile file)).2.1 ∧
      (readHeaderSize (IfStream.ofFile out)).1 = (readHeaderSize (IfStream.ofFile file)).1 ∧
      ColorToGrey.main out = Outcome.created (some again) := by
  obtain ⟨s, hs⟩ := ColorToGrey.sequential_convertToGrey_signed file 30 [] n (by omega) hn hnmax
    hlo hhi hlen
  generalize hrows : (intFieldAt file 22).toNat * (3 * (intFieldAt file 18).toNat +
      (4 - (intFieldAt file 18).toNat * 3 % 4) % 4) = total at hlen
  have hG : (greyRows (intFieldAt file 18).toNat ((4 - (intFieldAt file 18).toNat * 3 % 4) % 4)
      (intFieldAt file 22).toNat (file.drop n)).length = total := by
    rw [greyRows_length _ _ _ _ (by rw [List.length_drop, hrows]; omega), hrows]
  generalize hGdef : greyRows (intFieldAt file 18).toNat
    ((4 - (intFieldAt file 18).toNat * 3 % 4) % 4) (intFieldAt file 22).toNat (file.drop n) =
    G at hs hG
  rw [List.nil_append] at hs
  have htake : (file.take n).length = n := by rw [List.length_take]; omega
  have houtlen : (file.take n ++ G).length = n + total := by
    rw [List.length_append, htake, hG]
  have hpre : (file.take n ++ G).take 30 = file.take 30 := by
    rw [List.take_append_of_le_length (by omega), List.take_take, Nat.min_eq_left hn30]
  have hw : ∀ off k, off + k ≤ 30 →
      ((file.take n ++ G).drop off).take k = (file.drop off).take k :=
    fun off k hk => window_eq _ _ 30 off k hpre hk
  have hmagic2 : (file.take n ++ G).take 2 = [66, 77] := by
    have := hw 0 2 (by omega)
    rw [List.drop_zero, List.drop_zero] at this
    rw [this, hmagic]
  have hbpp2 : leValue (((file.take n ++ G).drop 28).take 2) = 24 := by
    rw [hw 28 2 (by omega), hbpp]
  have hn2 : fieldAt (file.take n ++ G) 10 = n := by
    unfold fieldAt; rw [hw 10 4 (by omega)]; exact hn
  have hw2 : intFieldAt (file.take n ++ G) 18 = intFieldAt file 18 := by
    unfold intFieldAt; rw [hw 18 4 (by omega)]
  have hh2 : intFieldAt (file.take n ++ G) 22 = intFieldAt file 22 := by
    unfold intFieldAt; rw [hw 22 4 (by omega)]
  obtain ⟨s2, hs2⟩ := ColorToGrey.sequential_convertToGrey_signed (file.take n ++ G) 30 [] n
    (by omega) hn2 hnmax (by rw [hw2]; exact hlo) (by rw [hw2]; exact hhi)
    (by rw [hw2, hh2, hrows, houtlen])
  obtain ⟨again, hagain⟩ : ∃ again, ColorToGrey.convertToGrey
      { content := file.take n ++ G, pos := 30, failed := false } [] = some (s2, again) :=
    ⟨_, hs2⟩
  refine ⟨file.take n ++ G, again, ?_, ?_, ?_, ?_, ?_, ?_, ?_⟩
  · rw [sequential_main_eq file h30, if_pos ⟨hmagic, hbpp⟩, hs]
    rfl
  · rw [isBmpFile_accepts _ (by omega) hmagic2]
  · rw [isBmpFile_accepts _ (by omega) hmagic2, is24Bpp_good _ 2 (by omega), hbpp2]
    rfl
  · unfold IfStream.ofFile
    rw [getDimension_signed _ 0 (by omega), getDimension_signed _ 0 (by omega), hw2]
  · unfold IfStream.ofFile
    rw [getDimension_signed _ 0 (by omega), getDimension_signed _ 0 (by omega), hh2]
  · unfold IfStream.ofFile
    rw [readHeaderSize_good _ 0 (by omega), readHeaderSize_good _ 0 (by omega), hn2, hn]
  · rw [sequential_main_eq _ (by omega), if_pos ⟨hmagic2, hbpp2⟩, hagain]
    rfl

/-- C17 (amended), on the 2 x 2 sample image. -/
theorem output_is_accepted_again_witness :
    ∃ out again,
      ColorToGrey.main sampleBmp = Outcome.created (some out) ∧
      (isBmpFile (IfStream.ofFile out)).1 = some true ∧
      (is24Bpp (isBmpFile (IfStream.ofFile out)).2).1 = true ∧
      (getDimension (IfStream.ofFile out)).1 = (getDimension (IfStream.ofFile sampleBmp)).1 ∧
      (getDimension (IfStream.ofFile out)).2.1 =
        (getDimension (IfStream.ofFile sampleBmp)).2.1 ∧
      (readHeaderSize (IfStream.ofFile out)).1 =
        (readHeaderSize (IfStream.ofFile sampleBmp)).1 ∧
      ColorToGrey.main out = Outcome.created (some again) :=
  output_is_accepted_again sampleBmp 54 (by decide) (by decide) (by decide) (by decide)
    (by decide) (by decide) (by decide) (by decide) (by decide)
